import Mathlib

/-!
# ZLLMatch: the position-indexed gain tracker of `Source/DSP/Matcher.h`

A shallow embedding of `Translator`, `LoudnessPos` and `Matcher`, followed by
theorems about them.

Modelling conventions.

* `FloatType` values are exact rationals: the finite values of the C++ floating
  type, without rounding and without NaN or infinities.
* `int64_t` positions are integers; the code only compares and copies them.
* `size_t` values are natural numbers, and every `size_t` operation of the
  source is reduced modulo `2 ^ 64` where the source computes it.
* `std::vector` is `List`.  An access outside a vector (undefined behaviour in
  C++) makes the embedded function return `none`.
* The `std::atomic` members are plain fields: one call is modelled as one
  sequential step.
-/

namespace ZLLMatch

/-- The floating type the templates are instantiated with, taken as exact rationals. -/
abbrev FloatType := ℚ

/-- The number of values of `size_t`: unsigned arithmetic wraps modulo this. -/
abbrev SIZE_MOD : Nat := 2 ^ 64

/-- The conversion `static_cast<size_t>` of a signed integer. -/
def toSizeT (i : Int) : Nat := (i % (SIZE_MOD : Int)).toNat

namespace juce

/-- JUCE library function `juce::jmin(a, b)`, which is `(b < a) ? b : a`. -/
def jmin (a b : FloatType) : FloatType := if b < a then b else a

/-- JUCE library function `juce::jlimit(lowerLimit, upperLimit, valueToConstrain)`, which is
`value < lower ? lower : (upper < value ? upper : value)`. -/
def jlimit (lowerLimit upperLimit valueToConstrain : FloatType) : FloatType :=
  if valueToConstrain < lowerLimit then lowerLimit
  else if upperLimit < valueToConstrain then upperLimit
  else valueToConstrain

end juce

namespace ZLDsp.loudness

/-- Modelled from the spec: `dsp_defines.h` is not among the sources.  `loudnessNUM` is the
number N of loudness definitions kept per snapshot; `LoudnessPos::toStruct` fills each
`Translator` array with exactly the three values of indices 0, 1 and 2, and the spec's
examples use three values, so N = 3. -/
abbrev loudnessNUM : Nat := 3

/-- Modelled from the spec: `getEmptyLoudness` of `dsp_defines.h` is not among the sources.
The spec describes the snapshot seeded by `reset` as having all-zero loudness values, one
per loudness definition. -/
def getEmptyLoudness : List FloatType := List.replicate loudnessNUM 0

end ZLDsp.loudness

open ZLDsp.loudness

/-- The fixed-layout record `Translator<FloatType>`: the two arrays hold `loudnessNUM` values. -/
structure Translator where
  mainLoudness : Fin loudnessNUM → FloatType
  targetLoudness : Fin loudnessNUM → FloatType
  peak : FloatType
  position : Int

/-- The snapshot class `LoudnessPos<FloatType>`, with its four private members. -/
structure LoudnessPos where
  m_mainLoudness : List FloatType
  m_targetLoudness : List FloatType
  m_peak : FloatType
  m_position : Int
deriving DecidableEq, Repr

namespace LoudnessPos

/-- The constructor `LoudnessPos(Translator)`: both vectors are assigned the `loudnessNUM`
array values, in order. -/
def ofTranslator (translator : Translator) : LoudnessPos where
  m_mainLoudness := List.ofFn translator.mainLoudness
  m_targetLoudness := List.ofFn translator.targetLoudness
  m_peak := translator.peak
  m_position := translator.position

/-- The method `LoudnessPos::getGain`. -/
def getGain (s : LoudnessPos) (loudnessID : Nat) (ceil useTargetV : Bool)
    (targetV : FloatType) : Option FloatType :=
  let gain? : Option FloatType :=
    if useTargetV then
      match s.m_mainLoudness[loudnessID]? with
      | none => none
      | some mainL => some (targetV - mainL)
    else
      match s.m_targetLoudness[loudnessID]?, s.m_mainLoudness[loudnessID]? with
      | some targetL, some mainL => some (targetL - mainL)
      | _, _ => none
  match gain? with
  | none => none
  | some gain => if ceil then some (juce.jmin (-s.m_peak) gain) else some gain

/-- The method `LoudnessPos::getPosition`. -/
def getPosition (s : LoudnessPos) : Int := s.m_position

/-- The method `LoudnessPos::toStruct`: reads the elements 0, 1 and 2 of both vectors. -/
def toStruct (s : LoudnessPos) : Option Translator :=
  match s.m_mainLoudness[0]?, s.m_mainLoudness[1]?, s.m_mainLoudness[2]?,
        s.m_targetLoudness[0]?, s.m_targetLoudness[1]?, s.m_targetLoudness[2]? with
  | some m0, some m1, some m2, some t0, some t1, some t2 =>
    some { mainLoudness := ![m0, m1, m2], targetLoudness := ![t0, t1, t2],
           peak := s.m_peak, position := s.m_position }
  | _, _, _, _, _, _ => none

/-- A snapshot holding `loudnessNUM` main and `loudnessNUM` target values. -/
def WellFormed (s : LoudnessPos) : Prop :=
  s.m_mainLoudness.length = loudnessNUM ∧ s.m_targetLoudness.length = loudnessNUM

instance (s : LoudnessPos) : Decidable s.WellFormed := by
  unfold WellFormed; infer_instance

end LoudnessPos

/-- The members of the class `Matcher<FloatType>`. -/
structure Matcher where
  m_position : Int
  prev_id : Nat
  diffs : List LoudnessPos
  ceil : Bool
  sideID : Int
  loudnessID : Int
  bound : FloatType
  target : FloatType
deriving DecidableEq, Repr

namespace Matcher

/-- The constructor `Matcher() = default`: the member initialisers of the class. The five
policy defaults are constants of `dsp_defines.h`, taken as arguments. -/
def new (ceilDefault : Bool) (sideDefault loudnessDefault : Int)
    (boundDefault targetDefault : FloatType) : Matcher where
  m_position := 0
  prev_id := 0
  diffs := []
  ceil := ceilDefault
  sideID := sideDefault
  loudnessID := loudnessDefault
  bound := boundDefault
  target := targetDefault

/-- The method `Matcher::reset`. -/
def reset (m : Matcher) : Matcher :=
  { m with diffs := [⟨getEmptyLoudness, getEmptyLoudness, 0, m.m_position⟩], prev_id := 0 }

/-- The method `Matcher::setPosition`. -/
def setPosition (m : Matcher) (pos : Int) : Matcher := { m with m_position := pos }

/-- The method `Matcher::setCeil`. -/
def setCeil (m : Matcher) (f : Bool) : Matcher := { m with ceil := f }

/-- The method `Matcher::setSideID`. -/
def setSideID (m : Matcher) (ID : Int) : Matcher := { m with sideID := ID }

/-- The method `Matcher::setLoudnessID`. -/
def setLoudnessID (m : Matcher) (ID : Int) : Matcher := { m with loudnessID := ID }

/-- The method `Matcher::setBound`. -/
def setBound (m : Matcher) (v : FloatType) : Matcher := { m with bound := v }

/-- The method `Matcher::setTarget`. -/
def setTarget (m : Matcher) (v : FloatType) : Matcher := { m with target := v }

/-- The method `Matcher::learnDiff`: the `while` loop pops the last snapshot as long as there
is one and its position is `>=` the published position; then the new snapshot is appended. -/
def learnDiff (m : Matcher) (mainL targetL : List FloatType) (mainPeak : FloatType) : Matcher :=
  { m with diffs :=
      m.diffs.rdropWhile (fun d => decide (d.getPosition ≥ m.m_position))
        ++ [⟨mainL, targetL, mainPeak, m.m_position⟩] }

/-- The expression `(prev_id + shift_id) % diffs.size()` of `getDiff`. -/
def index_id (m : Matcher) (shift_id : Nat) : Nat :=
  ((m.prev_id + shift_id) % SIZE_MOD) % m.diffs.length

/-- The expression `(prev_id + shift_id - 1) % diffs.size()` of `getDiff`: the subtraction is
unsigned, so `0 - 1` is `2 ^ 64 - 1`. -/
def left_id (m : Matcher) (shift_id : Nat) : Nat :=
  (((m.prev_id + shift_id) % SIZE_MOD + (SIZE_MOD - 1)) % SIZE_MOD) % m.diffs.length

/-- The `for` loop of `Matcher::getDiff`, entered at `shift_id` with `fuel` iterations left,
and the final `return 0` after it. The result is the returned gain and the state left. -/
def getDiffLoop (sideValue : Int) (m : Matcher) : Nat → Nat → Option (FloatType × Matcher)
  | _, 0 => some (0, m)
  | shift_id, fuel + 1 =>
    match m.diffs[m.index_id shift_id]? with
    | none => none
    | some d =>
      if m.m_position < d.getPosition then
        match m.diffs[m.left_id shift_id]? with
        | none => none
        | some l =>
          if m.m_position ≥ l.getPosition then
            match d.getGain (toSizeT m.loudnessID) m.ceil (m.sideID == sideValue) m.target with
            | none => none
            | some gain =>
              some (juce.jlimit (-m.bound) m.bound gain, { m with prev_id := m.index_id shift_id })
          else getDiffLoop sideValue m (shift_id + 1) fuel
      else getDiffLoop sideValue m (shift_id + 1) fuel

/-- The method `Matcher::getDiff`. `sideValue` is the constant `ZLDsp::side::value` of
`dsp_defines.h`. `front()` and `back()` of an empty vector are undefined: `none`. -/
def getDiff (sideValue : Int) (m : Matcher) : Option (FloatType × Matcher) :=
  match m.diffs.head?, m.diffs.getLast? with
  | some front, some back =>
    if m.m_position < front.getPosition ∨ m.m_position ≥ back.getPosition then some (0, m)
    else getDiffLoop sideValue m 0 m.diffs.length
  | _, _ => none

/-- The method `Matcher::toString`: every snapshot is converted by `toStruct`, in order, and
the records are handed to the codec `ZLDsp::VectorToBase64String`, taken as an argument. -/
def toString (VectorToBase64String : List Translator → String) (m : Matcher) : Option String :=
  (m.diffs.mapM LoudnessPos.toStruct).map VectorToBase64String

/-- The method `Matcher::fromString`: the history is cleared and refilled with one snapshot
per record the codec `ZLDsp::Base64StringToVector`, taken as an argument, decodes. -/
def fromString (Base64StringToVector : String → List Translator) (m : Matcher) (str : String) :
    Matcher :=
  { m with diffs := (Base64StringToVector str).map LoudnessPos.ofTranslator }


/-- The test of the loop body of `getDiff` at `shift_id`:
`m_position < diffs[index_id].getPosition() && m_position >= diffs[left_id].getPosition()`. -/
def hit (m : Matcher) (shift_id : Nat) : Bool :=
  match m.diffs[m.index_id shift_id]?, m.diffs[m.left_id shift_id]? with
  | some d, some l => decide (m.m_position < d.getPosition) && decide (m.m_position ≥ l.getPosition)
  | _, _ => false

/-- The bounds check of `getDiff` lets the published position through: the history has a
first and a last snapshot and `front.position <= m_position < back.position`. -/
def inRange (m : Matcher) : Bool :=
  match m.diffs.head?, m.diffs.getLast? with
  | some front, some back =>
    !(decide (m.m_position < front.getPosition) || decide (m.m_position ≥ back.getPosition))
  | _, _ => false

/-- The circular search of `getDiff` resolves an interval at `shift_id`: the bounds check is
passed and the loop test succeeds at `shift_id` for the first time. -/
def Resolves (m : Matcher) (shift_id : Nat) : Prop :=
  m.inRange = true ∧ shift_id < m.diffs.length ∧ m.hit shift_id = true ∧
    ∀ u, u < shift_id → m.hit u = false

instance (m : Matcher) (shift_id : Nat) : Decidable (m.Resolves shift_id) := by
  unfold Resolves; infer_instance

/-- What `getDiff` does once the loop test succeeds with `index_id = j`: the cursor hint becomes
`j`, and the gain of `diffs[j]` under the published policy is clamped to the bound. -/
def resolveAt (sideValue : Int) (m : Matcher) (j : Nat) : Option (FloatType × Matcher) :=
  match m.diffs[j]? with
  | none => none
  | some d =>
    match d.getGain (toSizeT m.loudnessID) m.ceil (m.sideID == sideValue) m.target with
    | none => none
    | some gain => some (juce.jlimit (-m.bound) m.bound gain, { m with prev_id := j })

end Matcher

/-- Positions strictly increasing along a history. -/
def StrictlyIncreasing (history : List LoudnessPos) : Prop :=
  history.Pairwise (fun a b => a.getPosition < b.getPosition)

instance (history : List LoudnessPos) : Decidable (StrictlyIncreasing history) := by
  unfold StrictlyIncreasing; infer_instance

/-- Follows the spec's words: the brute-force linear scan over adjacent pairs. It returns the
index `i` of the first pair `(history[i-1], history[i])` with
`history[i-1].position <= q < history[i].position`; `i` is the index of the head here. -/
def linearScan (q : Int) : Nat → List LoudnessPos → Option Nat
  | i, a :: b :: rest =>
    if a.getPosition ≤ q ∧ q < b.getPosition then some (i + 1)
    else linearScan q (i + 1) (b :: rest)
  | _, _ => none

/-- The index `i >= 1` names an interval of the history that holds `q`:
`history[i-1].position <= q < history[i].position`. -/
def IsInterval (history : List LoudnessPos) (q : Int) (i : Nat) : Prop :=
  1 ≤ i ∧ ∃ a b, history[i - 1]? = some a ∧ history[i]? = some b ∧
    a.getPosition ≤ q ∧ q < b.getPosition

/-- The snapshot of the spec's gain example: main loudness -20, -18, -16, target loudness
-14, -14, -14 and peak 3. Its relative gain for definition 0 is 6, and -3 under the ceiling. -/
def exampleSnapshot (position : Int) : LoudnessPos :=
  ⟨[-20, -18, -16], [-14, -14, -14], 3, position⟩

/-- A history of three snapshots at positions 0, 10 and 20, whose relative gains for
definition 0 are 1, 6 and -6. -/
def exampleHistory : List LoudnessPos :=
  [⟨[-15, -15, -15], [-14, -14, -14], 1, 0⟩, exampleSnapshot 10, ⟨[-8, -8, -8], [-14, -14, -14], 0, 20⟩]

/-- A tracker over `exampleHistory` in relative mode (its side selector 0 differs from the
`sideValue` 1 used with it) for definition 0. -/
def exampleMatcher (position : Int) (prev_id : Nat) (ceil : Bool) (bound : FloatType) : Matcher :=
  ⟨position, prev_id, exampleHistory, ceil, 0, 0, bound, 0⟩

/-- The states of a tracker in use: those reached from `reset()`, called in any state, by
any sequence of `setPosition`, the policy setters, `learnDiff`, `getDiff` and `reset`. -/
inductive Reachable (sideValue : Int) : Matcher → Prop
  | reset (m : Matcher) : Reachable sideValue m.reset
  | setPosition (m : Matcher) (pos : Int) : Reachable sideValue m →
      Reachable sideValue (m.setPosition pos)
  | setCeil (m : Matcher) (f : Bool) : Reachable sideValue m → Reachable sideValue (m.setCeil f)
  | setSideID (m : Matcher) (ID : Int) : Reachable sideValue m →
      Reachable sideValue (m.setSideID ID)
  | setLoudnessID (m : Matcher) (ID : Int) : Reachable sideValue m →
      Reachable sideValue (m.setLoudnessID ID)
  | setBound (m : Matcher) (v : FloatType) : Reachable sideValue m →
      Reachable sideValue (m.setBound v)
  | setTarget (m : Matcher) (v : FloatType) : Reachable sideValue m →
      Reachable sideValue (m.setTarget v)
  | learnDiff (m : Matcher) (mainL targetL : List FloatType) (mainPeak : FloatType) :
      Reachable sideValue m → Reachable sideValue (m.learnDiff mainL targetL mainPeak)
  | getDiff (m m' : Matcher) (gain : FloatType) : Reachable sideValue m →
      Matcher.getDiff sideValue m = some (gain, m') → Reachable sideValue m'

/-- The records `Translator` can be counted: each is four components that can. -/
instance : Encodable Translator :=
  Encodable.ofEquiv ((Fin loudnessNUM → FloatType) × (Fin loudnessNUM → FloatType) × FloatType × Int)
    { toFun := fun t => (t.mainLoudness, t.targetLoudness, t.peak, t.position)
      invFun := fun p => ⟨p.1, p.2.1, p.2.2.1, p.2.2.2⟩
      left_inv := fun _ => rfl
      right_inv := fun _ => rfl }

/-- A lossless stand-in for the codec `ZLDsp::VectorToBase64String`, for the examples: the
string of as many letters as the code number of the record list. -/
def exampleEncode (translators : List Translator) : String :=
  String.mk (List.replicate (Encodable.encode translators) 'a')

/-- The inverse of `exampleEncode`, standing in for `ZLDsp::Base64StringToVector`. -/
def exampleDecode (str : String) : List Translator :=
  (Encodable.decode str.length).getD []

/-- A tracker that was constructed and then learned snapshots at the positions 100, 200 and
300, in this order. -/
def exampleLearned : Matcher :=
  (Matcher.new false 0 0 2 0).setPosition 100
    |>.learnDiff [-20, -18, -16] [-14, -14, -14] 3
    |>.setPosition 200
    |>.learnDiff [-8, -8, -8] [-14, -14, -14] 0
    |>.setPosition 300
    |>.learnDiff [-1, -2, -3] [-4, -5, -6] 1

/-- A run of a tracker in use: reset at position 5, then snapshots learned at 100 and 200,
then the position moved back to 150 and a snapshot learned there. -/
def exampleRun : Matcher :=
  (exampleMatcher 5 0 false 2).reset.setPosition 100
    |>.learnDiff [-20, -18, -16] [-14, -14, -14] 3
    |>.setPosition 200
    |>.learnDiff [-8, -8, -8] [-14, -14, -14] 0
    |>.setPosition 150
    |>.learnDiff [-9, -9, -9] [-7, -7, -7] 2

/-- The method `LoudnessPos::getSize`, the byte size of one persisted record:
`sizeof(FloatType) * (loudnessNUM * 2 + 1) + sizeof(int64_t)`, with `sizeof(FloatType)` taken as
an argument and `sizeof(int64_t) = 8`. -/
def LoudnessPos.getSize (sizeofFloatType : Nat) : Nat :=
  sizeofFloatType * (loudnessNUM * 2 + 1) + 8

/-- The error of the spec's error taxonomy for a persisted string that cannot be decoded. -/
inductive DecodeError where
  | lengthNotMultipleOfRecordSize
deriving DecidableEq, Repr

/-- Modelled from the spec: `ZLDsp::Base64StringToVector` of `dsp_defines.h` is not among the
sources. The spec has the decoder reject, with a DecodeError, any string whose decoded length
is not an exact multiple of one record's byte size, and otherwise yield the fixed-layout
records in order. `decodedBytes` is the base64 decoding of the JUCE library, `recordSize` the
byte size of one record and `readRecord` the host-native layout of one record; the three are
taken as arguments. -/
def ZLDsp.Base64StringToVector (decodedBytes : String → List (Fin 256)) (recordSize : Nat)
    (readRecord : List (Fin 256) → Translator) (str : String) :
    Except DecodeError (List Translator) :=
  if (decodedBytes str).length % recordSize ≠ 0 then
    Except.error DecodeError.lengthNotMultipleOfRecordSize
  else Except.ok (((decodedBytes str).toChunks recordSize).map readRecord)

/-- The method `Matcher::fromString` run with a decoder that can throw. `diffs.clear()` comes
before the call of the decoder and nothing catches, so an exception of the decoder leaves
`fromString` with the history cleared. The result is the exception, if any, and the state. -/
def Matcher.fromStringThrowing (Base64StringToVector : String → Except DecodeError (List Translator))
    (m : Matcher) (str : String) : Option DecodeError × Matcher :=
  match Base64StringToVector str with
  | Except.error e => (some e, { m with diffs := [] })
  | Except.ok translators =>
    (none, { m with diffs := translators.map LoudnessPos.ofTranslator })

/-- A stand-in for the base64 decoding, for the examples: one byte per character. -/
def exampleBytes (str : String) : List (Fin 256) :=
  str.toList.map (fun ch => Fin.ofNat ch.toNat)

/-- A stand-in for the layout of one record, for the examples: the all-zero record. -/
def exampleRecord (_bytes : List (Fin 256)) : Translator :=
  ⟨fun _ => 0, fun _ => 0, 0, 0⟩

/-- A tracker over a malformed history, whose positions 0, 30, 10, 20 are out of order,
queried at position 15 from the cursor hint 0. -/
def malformedMatcher : Matcher :=
  ⟨15, 0, [exampleSnapshot 0, exampleSnapshot 30, exampleSnapshot 10, exampleSnapshot 20],
    false, 0, 0, 100, 0⟩

/-! ## The search loop of `getDiff` -/

namespace Matcher

theorem index_id_lt (m : Matcher) (t : Nat) (h : m.diffs ≠ []) : m.index_id t < m.diffs.length :=
  Nat.mod_lt _ (List.length_pos.mpr h)

theorem left_id_lt (m : Matcher) (t : Nat) (h : m.diffs ≠ []) : m.left_id t < m.diffs.length :=
  Nat.mod_lt _ (List.length_pos.mpr h)

theorem hit_eq_true_iff (m : Matcher) (t : Nat) :
    m.hit t = true ↔ ∃ d l, m.diffs[m.index_id t]? = some d ∧ m.diffs[m.left_id t]? = some l ∧
      m.m_position < d.getPosition ∧ l.getPosition ≤ m.m_position := by
  unfold hit
  constructor
  · intro h
    split at h
    · next d l hd hl =>
      simp only [Bool.and_eq_true, decide_eq_true_eq, ge_iff_le] at h
      exact ⟨d, l, hd, hl, h.1, h.2⟩
    · exact absurd h (by simp)
  · rintro ⟨d, l, hd, hl, h1, h2⟩
    simp only [hd, hl, h1, h2, decide_True, Bool.and_self, ge_iff_le]

theorem getDiffLoop_hit (sv : Int) (m : Matcher) (t fuel : Nat) (h : m.hit t = true) :
    getDiffLoop sv m t (fuel + 1) = resolveAt sv m (m.index_id t) := by
  obtain ⟨d, l, hd, hl, h1, h2⟩ := (hit_eq_true_iff m t).mp h
  simp only [getDiffLoop, resolveAt, hd, hl, h1, h2, if_true, ge_iff_le]

theorem getDiffLoop_miss (sv : Int) (m : Matcher) (t fuel : Nat) (hne : m.diffs ≠ [])
    (h : m.hit t = false) : getDiffLoop sv m t (fuel + 1) = getDiffLoop sv m (t + 1) fuel := by
  obtain ⟨d, hd⟩ : ∃ d, m.diffs[m.index_id t]? = some d :=
    ⟨_, List.getElem?_eq_getElem (index_id_lt m t hne)⟩
  obtain ⟨l, hl⟩ : ∃ l, m.diffs[m.left_id t]? = some l :=
    ⟨_, List.getElem?_eq_getElem (left_id_lt m t hne)⟩
  have hn : ¬ (m.hit t = true) := by simp [h]
  simp only [getDiffLoop, hd, hl]
  by_cases h1 : m.m_position < d.getPosition
  · have h2 : ¬ (m.m_position ≥ l.getPosition) := fun h2 =>
      hn ((hit_eq_true_iff m t).mpr ⟨d, l, hd, hl, h1, h2⟩)
    simp only [h1, h2, if_true, if_false]
  · simp only [h1, if_false]

theorem getDiffLoop_no_hit (sv : Int) (m : Matcher) (hne : m.diffs ≠ []) (fuel : Nat) :
    ∀ s, (∀ t, s ≤ t → t < s + fuel → m.hit t = false) →
      getDiffLoop sv m s fuel = some (0, m) := by
  induction fuel with
  | zero => intro s _; rfl
  | succ k ih =>
    intro s h
    rw [getDiffLoop_miss sv m s k hne (h s le_rfl (by omega))]
    exact ih (s + 1) (fun t h1 h2 => h t (by omega) (by omega))

theorem getDiffLoop_first_hit (sv : Int) (m : Matcher) (hne : m.diffs ≠ []) (fuel : Nat) :
    ∀ s t, s ≤ t → t < s + fuel → m.hit t = true → (∀ u, s ≤ u → u < t → m.hit u = false) →
      getDiffLoop sv m s fuel = resolveAt sv m (m.index_id t) := by
  induction fuel with
  | zero => intro s t h1 h2; omega
  | succ k ih =>
    intro s t h1 h2 h3 h4
    by_cases hst : s = t
    · subst hst; exact getDiffLoop_hit sv m s k h3
    · rw [getDiffLoop_miss sv m s k hne (h4 s le_rfl (by omega))]
      exact ih (s + 1) t (by omega) (by omega) h3 (fun u h5 h6 => h4 u (by omega) h6)

theorem inRange_eq_true_iff (m : Matcher) :
    m.inRange = true ↔ ∃ f b, m.diffs.head? = some f ∧ m.diffs.getLast? = some b ∧
      f.getPosition ≤ m.m_position ∧ m.m_position < b.getPosition := by
  unfold inRange
  constructor
  · intro h
    split at h
    · next f b hf hb =>
      simp only [Bool.not_eq_true', Bool.or_eq_false_iff, decide_eq_false_iff_not, not_lt,
        ge_iff_le, not_le] at h
      exact ⟨f, b, hf, hb, h.1, h.2⟩
    · exact absurd h (by simp)
  · rintro ⟨f, b, hf, hb, h1, h2⟩
    simp only [hf, hb, ge_iff_le, Bool.not_eq_true', Bool.or_eq_false_iff,
      decide_eq_false_iff_not, not_lt, not_le]
    exact ⟨h1, h2⟩

theorem ne_nil_of_inRange (m : Matcher) (h : m.inRange = true) : m.diffs ≠ [] := by
  obtain ⟨f, b, hf, _⟩ := (inRange_eq_true_iff m).mp h
  intro e; rw [e] at hf; simp at hf

theorem getDiff_of_inRange (sv : Int) (m : Matcher) (h : m.inRange = true) :
    getDiff sv m = getDiffLoop sv m 0 m.diffs.length := by
  obtain ⟨f, b, hf, hb, h1, h2⟩ := (inRange_eq_true_iff m).mp h
  have h3 : ¬ (m.m_position < f.getPosition ∨ m.m_position ≥ b.getPosition) := by
    rintro (h | h) <;> omega
  simp only [getDiff, hf, hb, h3, if_false]

theorem getDiff_of_not_inRange (sv : Int) (m : Matcher) (hne : m.diffs ≠ [])
    (h : m.inRange = false) : getDiff sv m = some (0, m) := by
  obtain ⟨f, hf⟩ : ∃ f, m.diffs.head? = some f := by
    cases hd : m.diffs with
    | nil => exact absurd hd hne
    | cons a l => exact ⟨a, rfl⟩
  obtain ⟨b, hb⟩ : ∃ b, m.diffs.getLast? = some b :=
    ⟨_, List.getLast?_eq_getLast _ hne⟩
  have h3 : m.m_position < f.getPosition ∨ m.m_position ≥ b.getPosition := by
    by_contra hc
    have : m.inRange = true := (inRange_eq_true_iff m).mpr ⟨f, b, hf, hb, by omega, by omega⟩
    simp [h] at this
  simp only [getDiff, hf, hb, h3, if_true]

theorem getDiff_of_resolves (sv : Int) (m : Matcher) (t : Nat) (h : m.Resolves t) :
    getDiff sv m = resolveAt sv m (m.index_id t) := by
  obtain ⟨h1, h2, h3, h4⟩ := h
  rw [getDiff_of_inRange sv m h1]
  exact getDiffLoop_first_hit sv m (ne_nil_of_inRange m h1) _ 0 t (Nat.zero_le _) (by omega) h3
    (fun u _ hu => h4 u hu)

theorem getDiff_of_no_hit (sv : Int) (m : Matcher) (hne : m.diffs ≠ [])
    (h : ∀ t, t < m.diffs.length → m.hit t = false) : getDiff sv m = some (0, m) := by
  cases hr : m.inRange with
  | false => exact getDiff_of_not_inRange sv m hne hr
  | true =>
    rw [getDiff_of_inRange sv m hr]
    exact getDiffLoop_no_hit sv m hne _ 0 (fun t _ ht => h t (by omega))

/-- Either the search resolves at some shift, or `getDiff` returns the neutral gain. -/
theorem resolves_or_neutral (sv : Int) (m : Matcher) (hne : m.diffs ≠ []) :
    (∃ t, m.Resolves t) ∨
      ((m.inRange = false ∨ ∀ t, t < m.diffs.length → m.hit t = false) ∧
        getDiff sv m = some (0, m)) := by
  cases hr : m.inRange with
  | false => exact Or.inr ⟨Or.inl rfl, getDiff_of_not_inRange sv m hne hr⟩
  | true =>
    by_cases hex : ∃ t, t < m.diffs.length ∧ m.hit t = true
    · left
      classical
      refine ⟨Nat.find hex, hr, (Nat.find_spec hex).1, (Nat.find_spec hex).2, fun u hu => ?_⟩
      have := Nat.find_min hex hu
      have hlt : u < m.diffs.length := lt_trans hu (Nat.find_spec hex).1
      cases hh : m.hit u with
      | false => rfl
      | true => exact absurd ⟨hlt, hh⟩ this
    · right
      have hall : ∀ t, t < m.diffs.length → m.hit t = false := by
        intro t ht
        cases hh : m.hit t with
        | false => rfl
        | true => exact absurd ⟨t, ht, hh⟩ hex
      exact ⟨Or.inr hall, getDiff_of_no_hit sv m hne hall⟩

end Matcher

/-! ## Cursor arithmetic, intervals and the linear scan -/

namespace Matcher

theorem index_id_eq (m : Matcher) (t : Nat) (h : m.prev_id + t < SIZE_MOD) :
    m.index_id t = (m.prev_id + t) % m.diffs.length := by
  unfold index_id
  rw [Nat.mod_eq_of_lt h]

theorem left_id_eq (m : Matcher) (t : Nat) (hne : m.diffs ≠ []) (h : m.prev_id + t < SIZE_MOD)
    (h1 : 1 ≤ m.index_id t) : m.left_id t = m.index_id t - 1 := by
  have hi := index_id_eq m t h
  have hn : 0 < m.diffs.length := List.length_pos.mpr hne
  have hpos : 1 ≤ m.prev_id + t := by
    by_contra hc
    have h0 : m.prev_id + t = 0 := by omega
    rw [hi, h0, Nat.zero_mod] at h1
    omega
  have hw : ((m.prev_id + t) % SIZE_MOD + (SIZE_MOD - 1)) % SIZE_MOD = m.prev_id + t - 1 := by
    simp only [SIZE_MOD] at h ⊢
    omega
  unfold left_id
  rw [hw]
  have hdm := Nat.div_add_mod (m.prev_id + t) m.diffs.length
  rw [← hi] at hdm
  have hlt : m.index_id t < m.diffs.length := by rw [hi]; exact Nat.mod_lt _ hn
  have : m.prev_id + t - 1
      = (m.index_id t - 1) + m.diffs.length * ((m.prev_id + t) / m.diffs.length) := by
    omega
  rw [this, Nat.add_mul_mod_self_left, Nat.mod_eq_of_lt (by omega)]

theorem exists_shift (m : Matcher) (j : Nat) (hj : j < m.diffs.length)
    (hc : m.prev_id + m.diffs.length ≤ SIZE_MOD) :
    ∃ t, t < m.diffs.length ∧ m.index_id t = j := by
  have hr : m.prev_id % m.diffs.length < m.diffs.length := Nat.mod_lt _ (by omega)
  have hlt : (j + m.diffs.length - m.prev_id % m.diffs.length) % m.diffs.length
      < m.diffs.length := Nat.mod_lt _ (by omega)
  refine ⟨(j + m.diffs.length - m.prev_id % m.diffs.length) % m.diffs.length, hlt, ?_⟩
  rw [index_id_eq m _ (by omega), Nat.add_mod_mod]
  have hdm := Nat.div_add_mod m.prev_id m.diffs.length
  have : m.prev_id + (j + m.diffs.length - m.prev_id % m.diffs.length)
      = (j + m.diffs.length) + m.diffs.length * (m.prev_id / m.diffs.length) := by omega
  rw [this, Nat.add_mul_mod_self_left, Nat.add_mod_right, Nat.mod_eq_of_lt hj]

/-- Once the bounds check is passed and the cursor arithmetic does not wrap past `2 ^ 64`, the
loop test at a shift succeeds exactly when its `index_id` names an interval holding the
published position. -/
theorem hit_iff_isInterval (m : Matcher) (t : Nat) (f : LoudnessPos)
    (hf : m.diffs[0]? = some f) (hq : f.getPosition ≤ m.m_position)
    (h : m.prev_id + t < SIZE_MOD) :
    m.hit t = true ↔ IsInterval m.diffs m.m_position (m.index_id t) := by
  have hne : m.diffs ≠ [] := by
    intro e; rw [e] at hf; simp at hf
  rw [hit_eq_true_iff]
  constructor
  · rintro ⟨d, l, hd, hl, h1, h2⟩
    have h1i : 1 ≤ m.index_id t := by
      by_contra hc
      have h0 : m.index_id t = 0 := by omega
      rw [h0, hf] at hd
      cases hd
      omega
    rw [left_id_eq m t hne h h1i] at hl
    exact ⟨h1i, l, d, hl, hd, h2, h1⟩
  · rintro ⟨h1i, a, b, ha, hb, h1, h2⟩
    rw [← left_id_eq m t hne h h1i] at ha
    exact ⟨b, a, hb, ha, h2, h1⟩

end Matcher

theorem StrictlyIncreasing.le_of_le {l : List LoudnessPos} (hs : StrictlyIncreasing l)
    {i j : Nat} {a b : LoudnessPos} (ha : l[i]? = some a) (hb : l[j]? = some b) (hij : i ≤ j) :
    a.getPosition ≤ b.getPosition := by
  obtain ⟨hi, rfl⟩ := List.getElem?_eq_some.mp ha
  obtain ⟨hj, rfl⟩ := List.getElem?_eq_some.mp hb
  rcases Nat.lt_or_eq_of_le hij with h | h
  · exact le_of_lt (List.pairwise_iff_getElem.mp hs i j hi hj h)
  · subst h; exact le_rfl

theorem IsInterval.unique {l : List LoudnessPos} (hs : StrictlyIncreasing l) {q : Int}
    {i j : Nat} (hi : IsInterval l q i) (hj : IsInterval l q j) : i = j := by
  obtain ⟨h1, a, b, ha, hb, hab, hqb⟩ := hi
  obtain ⟨h2, c, d, hc, hd, hcq, hqd⟩ := hj
  by_contra hne
  rcases Nat.lt_or_gt_of_ne hne with h | h
  · have := hs.le_of_le hb hc (by omega)
    omega
  · have := hs.le_of_le hd ha (by omega)
    omega

theorem IsInterval.lt_length {l : List LoudnessPos} {q : Int} {i : Nat}
    (h : IsInterval l q i) : i < l.length := by
  obtain ⟨_, a, b, _, hb, _⟩ := h
  exact (List.getElem?_eq_some.mp hb).1

theorem isInterval_cons {a : LoudnessPos} {l : List LoudnessPos} {q : Int} {j : Nat}
    (hj : 1 ≤ j) : IsInterval (a :: l) q (j + 1) ↔ IsInterval l q j := by
  unfold IsInterval
  have e1 : (a :: l)[j + 1 - 1]? = l[j - 1]? := by
    obtain ⟨k, rfl⟩ : ∃ k, j = k + 1 := ⟨j - 1, by omega⟩
    simp
  have e2 : (a :: l)[j + 1]? = l[j]? := by simp
  rw [e1, e2]
  constructor
  · rintro ⟨_, h⟩; exact ⟨hj, h⟩
  · rintro ⟨_, h⟩; exact ⟨by omega, h⟩

/-- Some adjacent pair holds `q` as soon as `q` lies between the first and the last position;
no ordering of the history is needed. -/
theorem exists_isInterval (q : Int) : ∀ (l : List LoudnessPos) (f b : LoudnessPos),
    l.head? = some f → l.getLast? = some b → f.getPosition ≤ q → q < b.getPosition →
    ∃ i, IsInterval l q i
  | [], _, _, hf, _, _, _ => by simp at hf
  | [a], f, b, hf, hb, h1, h2 => by
    simp at hf hb
    subst hf; subst hb; omega
  | a :: c :: rest, f, b, hf, hb, h1, h2 => by
    simp only [List.head?_cons, Option.some.injEq] at hf
    subst hf
    by_cases hc : q < c.getPosition
    · exact ⟨1, le_rfl, a, c, by simp, by simp, h1, hc⟩
    · have hb' : (c :: rest).getLast? = some b := by
        rw [← hb]; simp [List.getLast?_cons_cons]
      obtain ⟨i, hi⟩ := exists_isInterval q (c :: rest) c b (by simp) hb' (by omega) h2
      exact ⟨i + 1, (isInterval_cons hi.1).mpr hi⟩

theorem linearScan_eq (q : Int) : ∀ (l : List LoudnessPos) (k i : Nat),
    IsInterval l q i → (∀ j, IsInterval l q j → j = i) → linearScan q k l = some (k + i)
  | [], _, _, hi, _ => by
    have := hi.lt_length; simp at this
  | [a], _, i, hi, _ => by
    have := hi.lt_length
    have := hi.1
    simp at *; omega
  | a :: c :: rest, k, i, hi, hu => by
    by_cases hc : a.getPosition ≤ q ∧ q < c.getPosition
    · have h1 : IsInterval (a :: c :: rest) q 1 := ⟨le_rfl, a, c, by simp, by simp, hc.1, hc.2⟩
      have := hu 1 h1
      subst this
      simp only [linearScan, hc, and_self, if_true]
    · have hi1 : i ≠ 1 := by
        rintro rfl
        obtain ⟨_, x, y, hx, hy, h1, h2⟩ := hi
        simp at hx hy
        subst hx; subst hy
        exact hc ⟨h1, h2⟩
      have hi2 := hi.1
      obtain ⟨j, rfl⟩ : ∃ j, i = j + 1 := ⟨i - 1, by omega⟩
      have hj1 : 1 ≤ j := by omega
      have hj := (isInterval_cons hj1).mp hi
      have := linearScan_eq q (c :: rest) (k + 1) j hj (fun j' hj' => by
        have := hu (j' + 1) ((isInterval_cons hj'.1).mpr hj')
        omega)
      simp only [linearScan, hc, if_false, this]
      congr 1; omega

/-! ## Gains and the resolved interval -/

theorem LoudnessPos.getGain_isSome (s : LoudnessPos) (k : Nat) (ceil useTargetV : Bool)
    (targetV : FloatType) (hm : k < s.m_mainLoudness.length)
    (ht : k < s.m_targetLoudness.length) :
    s.getGain k ceil useTargetV targetV = some
      (if ceil then
        juce.jmin (-s.m_peak) (if useTargetV then targetV - s.m_mainLoudness[k]
          else s.m_targetLoudness[k] - s.m_mainLoudness[k])
       else (if useTargetV then targetV - s.m_mainLoudness[k]
          else s.m_targetLoudness[k] - s.m_mainLoudness[k])) := by
  unfold LoudnessPos.getGain
  rw [List.getElem?_eq_getElem hm, List.getElem?_eq_getElem ht]
  cases useTargetV <;> cases ceil <;> simp

theorem juce.jmin_eq_min (a b : FloatType) : juce.jmin a b = min a b := by
  unfold juce.jmin
  rcases lt_or_le b a with h | h
  · rw [if_pos h, min_eq_right (le_of_lt h)]
  · rw [if_neg (not_lt.mpr h), min_eq_left h]

theorem juce.jlimit_eq (lo hi v : FloatType) (h : lo ≤ hi) :
    juce.jlimit lo hi v = max lo (min hi v) := by
  unfold juce.jlimit
  by_cases h1 : v < lo
  · rw [if_pos h1, min_eq_right (by linarith), max_eq_left (le_of_lt h1)]
  · rw [if_neg h1]
    by_cases h2 : hi < v
    · rw [if_pos h2, min_eq_left (le_of_lt h2), max_eq_right h]
    · rw [if_neg h2, min_eq_right (not_lt.mp h2), max_eq_right (not_lt.mp h1)]

namespace Matcher

theorem getDiff_of_isInterval (sv : Int) (m : Matcher) (i : Nat)
    (hs : StrictlyIncreasing m.diffs) (hc : m.prev_id + m.diffs.length ≤ SIZE_MOD)
    (hi : IsInterval m.diffs m.m_position i) :
    getDiff sv m = resolveAt sv m i := by
  have hlen := hi.lt_length
  have hne : m.diffs ≠ [] := by
    intro e; rw [e] at hlen; simp at hlen
  obtain ⟨f, hf⟩ : ∃ f, m.diffs[0]? = some f := ⟨_, List.getElem?_eq_getElem (by omega)⟩
  obtain ⟨h1, a, b, ha, hb, hqa, hqb⟩ := hi
  have hfq : f.getPosition ≤ m.m_position := le_trans (hs.le_of_le hf ha (by omega)) hqa
  have hi : IsInterval m.diffs m.m_position i := ⟨h1, a, b, ha, hb, hqa, hqb⟩
  rcases resolves_or_neutral sv m hne with ⟨t, ht⟩ | ⟨hno, _⟩
  · rw [getDiff_of_resolves sv m t ht]
    have hit := (hit_iff_isInterval m t f hf hfq (by have := ht.2.1; omega)).mp ht.2.2.1
    rw [IsInterval.unique hs hit hi]
  · exfalso
    obtain ⟨t, ht, hti⟩ := exists_shift m i hlen hc
    have hhit : m.hit t = true :=
      (hit_iff_isInterval m t f hf hfq (by omega)).mpr (hti ▸ hi)
    rcases hno with hr | hall
    · obtain ⟨l, hl⟩ : ∃ l, m.diffs[m.diffs.length - 1]? = some l :=
        ⟨_, List.getElem?_eq_getElem (by omega)⟩
      have hbl := hs.le_of_le hb hl (by omega)
      have : m.inRange = true := (inRange_eq_true_iff m).mpr
        ⟨f, l, by rw [List.head?_eq_getElem?, hf], by rw [List.getLast?_eq_getElem?, hl], hfq,
          by omega⟩
      rw [hr] at this; cases this
    · rw [hall t ht] at hhit; cases hhit

/-- The bound on the cursor hint in `getDiff_of_isInterval` comes from the arithmetic of
`size_t`: with the hint `2 ^ 64 - 1`, which no call stores, the sums `prev_id + shift_id` wrap
and the loop visits the indices 0, 0 and 1 of a history of three, so position 15 of the
example history, which lies between its snapshots 1 and 2, is not resolved. -/
theorem getDiff_wrapped_cursor_example :
    getDiff 1 (exampleMatcher 15 (2 ^ 64 - 1) false 100)
      = some (0, exampleMatcher 15 (2 ^ 64 - 1) false 100) := by
  decide

theorem resolveAt_eq_some (sv : Int) (m : Matcher) (i : Nat) (d : LoudnessPos)
    (hd : m.diffs[i]? = some d) (hwf : d.WellFormed) (hid : toSizeT m.loudnessID < loudnessNUM) :
    ∃ gain, d.getGain (toSizeT m.loudnessID) m.ceil (m.sideID == sv) m.target = some gain ∧
      resolveAt sv m i = some (juce.jlimit (-m.bound) m.bound gain, { m with prev_id := i }) := by
  have h := d.getGain_isSome (toSizeT m.loudnessID) m.ceil (m.sideID == sv) m.target
    (by rw [hwf.1]; exact hid) (by rw [hwf.2]; exact hid)
  refine ⟨_, h, ?_⟩
  simp only [resolveAt, hd, h]

end Matcher

/-! ## The claims -/

open Matcher

/-- C1: for a history with strictly increasing positions and a published position `q` with
`first.position <= q < last.position` (so the history has at least two snapshots), there is a
unique index `i >= 1` with `history[i-1].position <= q < history[i].position`; the brute-force
linear scan over adjacent pairs returns `i`; and for every cursor hint `c` (stale or not, as
long as `c + length` stays within `size_t`, which holds for every hint `getDiff` or `reset`
ever stored) `getDiff` returns the clamped gain of `history[i]`, the same for every `c`, and
leaves the cursor hint equal to `i`. -/
theorem getDiff_matches_linearScan (sv : Int) (m : Matcher) (f b : LoudnessPos)
    (hs : StrictlyIncreasing m.diffs) (hwf : ∀ s ∈ m.diffs, s.WellFormed)
    (hid : toSizeT m.loudnessID < loudnessNUM)
    (hf : m.diffs.head? = some f) (hb : m.diffs.getLast? = some b)
    (hq1 : f.getPosition ≤ m.m_position) (hq2 : m.m_position < b.getPosition) :
    ∃ i d gain, 2 ≤ m.diffs.length ∧ 1 ≤ i ∧ i < m.diffs.length ∧
      IsInterval m.diffs m.m_position i ∧
      (∀ j, IsInterval m.diffs m.m_position j → j = i) ∧
      linearScan m.m_position 0 m.diffs = some i ∧
      m.diffs[i]? = some d ∧
      d.getGain (toSizeT m.loudnessID) m.ceil (m.sideID == sv) m.target = some gain ∧
      ∀ c, c + m.diffs.length ≤ SIZE_MOD →
        getDiff sv { m with prev_id := c }
          = some (juce.jlimit (-m.bound) m.bound gain, { m with prev_id := i }) := by
  obtain ⟨i, hi⟩ := exists_isInterval m.m_position m.diffs f b hf hb hq1 hq2
  have huniq : ∀ j, IsInterval m.diffs m.m_position j → j = i :=
    fun j hj => IsInterval.unique hs hj hi
  have hlt := hi.lt_length
  obtain ⟨d, hd⟩ : ∃ d, m.diffs[i]? = some d := ⟨_, List.getElem?_eq_getElem hlt⟩
  have hdm : d ∈ m.diffs := by
    obtain ⟨h, rfl⟩ := List.getElem?_eq_some.mp hd
    exact List.getElem_mem h
  obtain ⟨gain, hg, hr⟩ := resolveAt_eq_some sv m i d hd (hwf d hdm) hid
  refine ⟨i, d, gain, by have := hi.1; omega, hi.1, hlt, hi, huniq, ?_, hd, hg, fun c hc => ?_⟩
  · have := linearScan_eq m.m_position m.diffs 0 i hi huniq
    rwa [Nat.zero_add] at this
  · rw [getDiff_of_isInterval sv { m with prev_id := c } i hs hc hi]
    obtain ⟨gain', hg', hr'⟩ := resolveAt_eq_some sv { m with prev_id := c } i d hd (hwf d hdm) hid
    rw [hr']
    have : gain' = gain := Option.some.inj (hg'.symm.trans hg)
    rw [this]

/-- C1, at the example history: position 5 lies between the snapshots at 0 and 10. -/
theorem getDiff_matches_linearScan_witness :
    ∃ i d gain, 2 ≤ (exampleMatcher 5 0 false 100).diffs.length ∧ 1 ≤ i ∧
      i < (exampleMatcher 5 0 false 100).diffs.length ∧
      IsInterval (exampleMatcher 5 0 false 100).diffs 5 i ∧
      (∀ j, IsInterval (exampleMatcher 5 0 false 100).diffs 5 j → j = i) ∧
      linearScan 5 0 (exampleMatcher 5 0 false 100).diffs = some i ∧
      (exampleMatcher 5 0 false 100).diffs[i]? = some d ∧
      d.getGain (toSizeT 0) false ((0 : Int) == 1) 0 = some gain ∧
      ∀ c, c + (exampleMatcher 5 0 false 100).diffs.length ≤ SIZE_MOD →
        getDiff 1 (exampleMatcher 5 c false 100)
          = some (juce.jlimit (-100) 100 gain, exampleMatcher 5 i false 100) :=
  getDiff_matches_linearScan 1 (exampleMatcher 5 0 false 100)
    ⟨[-15, -15, -15], [-14, -14, -14], 1, 0⟩ ⟨[-8, -8, -8], [-14, -14, -14], 0, 20⟩
    (by decide) (by decide) (by decide) rfl rfl (by decide) (by decide)

/-- C2 fails as stated: in the example history, position 5 lies in
`[history[0].position, history[1].position) = [0, 10)`; the gain computed from `history[0]`
and clamped is 1, yet `getDiff` returns 6, the clamped gain of `history[1]`. -/
theorem getDiff_not_from_left_snapshot :
    StrictlyIncreasing (exampleMatcher 5 0 false 100).diffs ∧
    (∃ a b, (exampleMatcher 5 0 false 100).diffs[0]? = some a ∧
      (exampleMatcher 5 0 false 100).diffs[0 + 1]? = some b ∧
      a.getPosition ≤ (exampleMatcher 5 0 false 100).m_position ∧
      (exampleMatcher 5 0 false 100).m_position < b.getPosition ∧
      (a.getGain (toSizeT 0) false ((0 : Int) == 1) 0).map (juce.jlimit (-100) 100) = some 1) ∧
    (getDiff 1 (exampleMatcher 5 0 false 100)).map Prod.fst = some 6 ∧
    (getDiff 1 (exampleMatcher 5 0 false 100)).map Prod.fst ≠ some 1 := by
  have h : getDiff 1 (exampleMatcher 5 0 false 100) = some (6, exampleMatcher 5 1 false 100) := by
    rw [getDiff_of_resolves 1 _ 1 (by decide)]
    simp [resolveAt, exampleMatcher, exampleHistory, exampleSnapshot, LoudnessPos.getGain,
      juce.jlimit, index_id, toSizeT]
    norm_num
  refine ⟨by decide, ⟨⟨[-15, -15, -15], [-14, -14, -14], 1, 0⟩, exampleSnapshot 10, rfl, rfl,
    by decide, by decide, ?_⟩, ?_, ?_⟩
  · simp [LoudnessPos.getGain, juce.jlimit, toSizeT]
    norm_num
  · rw [h]; rfl
  · rw [h]; simp

/-- C2, amended: for a history with strictly increasing positions and a published position
`q` with `history[i].position <= q < history[i+1].position`, the gain `getDiff` returns is
the one computed (`getGain` with the published policy, then clamped to the bound) from
`history[i+1]`, the first snapshot whose position is greater than `q`; the cursor hint
becomes `i + 1`. -/
theorem getDiff_uses_right_snapshot (sv : Int) (m : Matcher) (i : Nat) (a b : LoudnessPos)
    (hs : StrictlyIncreasing m.diffs) (hc : m.prev_id + m.diffs.length ≤ SIZE_MOD)
    (hwf : b.WellFormed) (hid : toSizeT m.loudnessID < loudnessNUM)
    (ha : m.diffs[i]? = some a) (hb : m.diffs[i + 1]? = some b)
    (hq1 : a.getPosition ≤ m.m_position) (hq2 : m.m_position < b.getPosition) :
    ∃ gain, b.getGain (toSizeT m.loudnessID) m.ceil (m.sideID == sv) m.target = some gain ∧
      getDiff sv m = some (juce.jlimit (-m.bound) m.bound gain, { m with prev_id := i + 1 }) ∧
      (∀ j s, m.diffs[j]? = some s → m.m_position < s.getPosition → i + 1 ≤ j) ∧
      (∀ j s, m.diffs[j]? = some s → s.getPosition ≤ m.m_position → j ≤ i) := by
  have hi : IsInterval m.diffs m.m_position (i + 1) :=
    ⟨by omega, a, b, by simpa using ha, hb, hq1, hq2⟩
  obtain ⟨gain, hg, hr⟩ := resolveAt_eq_some sv m (i + 1) b hb hwf hid
  refine ⟨gain, hg, ?_, fun j s hj hq => ?_, fun j s hj hq => ?_⟩
  · rw [getDiff_of_isInterval sv m (i + 1) hs hc hi, hr]
  · by_contra hlt
    have := hs.le_of_le hj ha (by omega)
    omega
  · by_contra hlt
    have := hs.le_of_le hb hj (by omega)
    omega

/-- C2 amended, at the example history: at position 5 the gain is that of the snapshot at 10. -/
theorem getDiff_uses_right_snapshot_witness :
    StrictlyIncreasing (exampleMatcher 5 0 false 100).diffs ∧
    ∃ gain, (exampleSnapshot 10).getGain (toSizeT 0) false ((0 : Int) == 1) 0 = some gain ∧
      getDiff 1 (exampleMatcher 5 0 false 100)
        = some (juce.jlimit (-100) 100 gain, exampleMatcher 5 (0 + 1) false 100) ∧
      (∀ j s, (exampleMatcher 5 0 false 100).diffs[j]? = some s → (5 : Int) < s.getPosition → 0 + 1 ≤ j) ∧
      (∀ j s, (exampleMatcher 5 0 false 100).diffs[j]? = some s → s.getPosition ≤ (5 : Int) → j ≤ 0) :=
  ⟨by decide, getDiff_uses_right_snapshot 1 (exampleMatcher 5 0 false 100) 0
    ⟨[-15, -15, -15], [-14, -14, -14], 1, 0⟩ (exampleSnapshot 10)
    (by decide) (by decide) (by decide) (by decide) rfl rfl (by decide) (by decide)⟩

/-- C3: for a valid definition index `k`, `getGain(k, ceil, useTargetV, targetV)` is `g` when
`ceil` is false and `min(g, -peak)` when it is true, where `g = targetV - mainLoudness[k]` if
`useTargetV` and `g = targetLoudness[k] - mainLoudness[k]` otherwise. -/
theorem getGain_formula (s : LoudnessPos) (k : Nat) (ceil useTargetV : Bool)
    (targetV : FloatType) (hm : k < s.m_mainLoudness.length)
    (ht : k < s.m_targetLoudness.length) :
    s.getGain k ceil useTargetV targetV = some
      (if ceil then
        min (if useTargetV then targetV - s.m_mainLoudness[k]
          else s.m_targetLoudness[k] - s.m_mainLoudness[k]) (-s.m_peak)
       else (if useTargetV then targetV - s.m_mainLoudness[k]
          else s.m_targetLoudness[k] - s.m_mainLoudness[k])) := by
  rw [LoudnessPos.getGain_isSome s k ceil useTargetV targetV hm ht, juce.jmin_eq_min, min_comm]

/-- C3, the spec's example: main loudness -20, -18, -16, target loudness -14, -14, -14, peak 3,
definition 0, relative mode: the gain is 6 without the ceiling and -3 with it. -/
theorem getGain_formula_witness :
    (0 < (exampleSnapshot 0).m_mainLoudness.length ∧
      0 < (exampleSnapshot 0).m_targetLoudness.length) ∧
    (exampleSnapshot 0).getGain 0 false false 0 = some 6 ∧
    (exampleSnapshot 0).getGain 0 true false 0 = some (-3) := by
  refine ⟨⟨by decide, by decide⟩, ?_, ?_⟩
  · rw [getGain_formula (exampleSnapshot 0) 0 false false 0 (by decide) (by decide)]
    simp [exampleSnapshot]; norm_num
  · rw [getGain_formula (exampleSnapshot 0) 0 true false 0 (by decide) (by decide)]
    simp [exampleSnapshot]; norm_num

theorem juce.jlimit_mem (lo hi v : FloatType) (h : lo ≤ hi) :
    lo ≤ juce.jlimit lo hi v ∧ juce.jlimit lo hi v ≤ hi := by
  unfold juce.jlimit
  split_ifs with h1 h2
  · exact ⟨le_rfl, h⟩
  · exact ⟨h, le_rfl⟩
  · exact ⟨not_lt.mp h1, not_lt.mp h2⟩

theorem juce.jlimit_of_mem (lo hi v : FloatType) (h1 : lo ≤ v) (h2 : v ≤ hi) :
    juce.jlimit lo hi v = v := by
  unfold juce.jlimit
  rw [if_neg (not_lt.mpr h1), if_neg (not_lt.mpr h2)]

/-- C4: for a non-empty history of well-formed snapshots, a valid definition index and a
bound `>= 0`, `getDiff` returns a value in `[-bound, +bound]`; and when the search resolves an
interval, at shift `t`, the value is the `getGain` value of the resolved snapshot
`history[index_id t]` clamped to that range: `max(-bound, min(bound, gain))`, which is the
gain itself when it already lies inside. -/
theorem getDiff_within_bound (sv : Int) (m : Matcher) (hne : m.diffs ≠ [])
    (hwf : ∀ s ∈ m.diffs, s.WellFormed) (hid : toSizeT m.loudnessID < loudnessNUM)
    (hb : 0 ≤ m.bound) :
    (∃ g m', getDiff sv m = some (g, m') ∧ -m.bound ≤ g ∧ g ≤ m.bound) ∧
    ∀ t, m.Resolves t → ∃ d gain, m.diffs[m.index_id t]? = some d ∧
      d.getGain (toSizeT m.loudnessID) m.ceil (m.sideID == sv) m.target = some gain ∧
      getDiff sv m
        = some (max (-m.bound) (min m.bound gain), { m with prev_id := m.index_id t }) ∧
      (-m.bound ≤ gain → gain ≤ m.bound → max (-m.bound) (min m.bound gain) = gain) := by
  have hlo : -m.bound ≤ m.bound := by linarith
  have key : ∀ t, m.Resolves t → ∃ d gain, m.diffs[m.index_id t]? = some d ∧
      d.getGain (toSizeT m.loudnessID) m.ceil (m.sideID == sv) m.target = some gain ∧
      getDiff sv m
        = some (juce.jlimit (-m.bound) m.bound gain, { m with prev_id := m.index_id t }) := by
    intro t ht
    obtain ⟨d, hd⟩ : ∃ d, m.diffs[m.index_id t]? = some d :=
      ⟨_, List.getElem?_eq_getElem (index_id_lt m t hne)⟩
    have hdm : d ∈ m.diffs := by
      obtain ⟨h, rfl⟩ := List.getElem?_eq_some.mp hd
      exact List.getElem_mem h
    obtain ⟨gain, hg, hr⟩ := resolveAt_eq_some sv m _ d hd (hwf d hdm) hid
    exact ⟨d, gain, hd, hg, by rw [getDiff_of_resolves sv m t ht, hr]⟩
  constructor
  · rcases resolves_or_neutral sv m hne with ⟨t, ht⟩ | ⟨_, h0⟩
    · obtain ⟨d, gain, _, _, h⟩ := key t ht
      exact ⟨_, _, h, (juce.jlimit_mem _ _ gain hlo).1, (juce.jlimit_mem _ _ gain hlo).2⟩
    · exact ⟨0, m, h0, by linarith, hb⟩
  · intro t ht
    obtain ⟨d, gain, hd, hg, h⟩ := key t ht
    refine ⟨d, gain, hd, hg, ?_, fun h1 h2 => ?_⟩
    · rw [h, juce.jlimit_eq _ _ _ hlo]
    · rw [min_eq_right h2, max_eq_right h1]

/-- C4, the spec's example: with bound 2, the unclamped gain 6 (position 5 of the example
history) comes back as exactly 2, and the unclamped gain -6 (position 15) as exactly -2. -/
theorem getDiff_within_bound_witness :
    ((exampleMatcher 5 0 false 2).diffs ≠ [] ∧
      (∀ s ∈ (exampleMatcher 5 0 false 2).diffs, s.WellFormed) ∧
      toSizeT (exampleMatcher 5 0 false 2).loudnessID < loudnessNUM ∧
      0 ≤ (exampleMatcher 5 0 false 2).bound) ∧
    (∃ g m', getDiff 1 (exampleMatcher 5 0 false 2) = some (g, m') ∧ -2 ≤ g ∧ g ≤ 2) ∧
    ((exampleSnapshot 10).getGain 0 false false 0 = some 6 ∧
      getDiff 1 (exampleMatcher 5 0 false 2) = some (2, exampleMatcher 5 1 false 2)) ∧
    ((⟨[-8, -8, -8], [-14, -14, -14], 0, 20⟩ : LoudnessPos).getGain 0 false false 0 = some (-6) ∧
      getDiff 1 (exampleMatcher 15 0 false 2) = some (-2, exampleMatcher 15 2 false 2)) := by
  refine ⟨⟨by decide, by decide, by decide, by decide⟩,
    (getDiff_within_bound 1 (exampleMatcher 5 0 false 2) (by decide) (by decide) (by decide)
      (by decide)).1, ⟨?_, ?_⟩, ⟨?_, ?_⟩⟩
  · simp [exampleSnapshot, LoudnessPos.getGain]; norm_num
  · rw [getDiff_of_resolves 1 _ 1 (by decide)]
    simp [resolveAt, exampleMatcher, exampleHistory, exampleSnapshot, LoudnessPos.getGain,
      juce.jlimit, index_id, toSizeT]
    norm_num
  · simp [LoudnessPos.getGain]; norm_num
  · rw [getDiff_of_resolves 1 _ 2 (by decide)]
    simp [resolveAt, exampleMatcher, exampleHistory, exampleSnapshot, LoudnessPos.getGain,
      juce.jlimit, index_id, toSizeT]
    norm_num

/-- C5 fails as stated: with the ceiling enabled and bound 2, at position 5 of the example
history `getDiff` resolves the snapshot at 10, whose peak is 3, and returns -2, which is
greater than `-peak = -3`. -/
theorem getDiff_ceiling_exceeded :
    (exampleMatcher 5 0 true 2).ceil = true ∧ 0 ≤ (exampleMatcher 5 0 true 2).bound ∧
    (exampleMatcher 5 0 true 2).Resolves 1 ∧
    (exampleMatcher 5 0 true 2).diffs[(exampleMatcher 5 0 true 2).index_id 1]?
      = some (exampleSnapshot 10) ∧
    getDiff 1 (exampleMatcher 5 0 true 2) = some (-2, exampleMatcher 5 1 true 2) ∧
    ¬ ((-2 : FloatType) ≤ -(exampleSnapshot 10).m_peak) := by
  refine ⟨rfl, by decide, by decide, by decide, ?_, ?_⟩
  · rw [getDiff_of_resolves 1 _ 1 (by decide)]
    simp [resolveAt, exampleMatcher, exampleHistory, exampleSnapshot, LoudnessPos.getGain,
      juce.jlimit, juce.jmin, index_id, toSizeT]
    norm_num
  · norm_num [exampleSnapshot]

/-- C5, amended: with the ceiling enabled and a bound `>= 0`, when `getDiff` resolves a
snapshot `s` the returned gain `g` satisfies `g <= max(-s.peak, -bound)`: it satisfies
`g <= -s.peak` whenever `s.peak <= bound`, and it is exactly `-bound` when `s.peak > bound`,
where the clamp to the bound comes after the ceiling. -/
theorem getDiff_ceiling_then_clamp (sv : Int) (m : Matcher) (t : Nat) (s : LoudnessPos)
    (hceil : m.ceil = true) (hb : 0 ≤ m.bound) (hr : m.Resolves t)
    (hs : m.diffs[m.index_id t]? = some s) (hwf : s.WellFormed)
    (hid : toSizeT m.loudnessID < loudnessNUM) :
    ∃ g, getDiff sv m = some (g, { m with prev_id := m.index_id t }) ∧
      g ≤ max (-s.m_peak) (-m.bound) ∧
      (s.m_peak ≤ m.bound → g ≤ -s.m_peak) ∧
      (m.bound < s.m_peak → g = -m.bound) := by
  have hlo : -m.bound ≤ m.bound := by linarith
  have hg := s.getGain_isSome (toSizeT m.loudnessID) m.ceil (m.sideID == sv) m.target
    (by rw [hwf.1]; exact hid) (by rw [hwf.2]; exact hid)
  rw [hceil, if_pos rfl, juce.jmin_eq_min] at hg
  obtain ⟨gain, hg', hres⟩ := resolveAt_eq_some sv m _ s hs hwf hid
  rw [hceil] at hg'
  have hgain : gain ≤ -s.m_peak := by
    have := Option.some.inj (hg'.symm.trans hg)
    rw [this]; exact min_le_left _ _
  refine ⟨_, by rw [getDiff_of_resolves sv m t hr, hres], ?_, fun hp => ?_, fun hp => ?_⟩
  · rw [juce.jlimit_eq _ _ _ hlo]
    exact max_le (le_max_right _ _) (le_trans (min_le_right _ _) (le_trans hgain (le_max_left _ _)))
  · rw [juce.jlimit_eq _ _ _ hlo]
    exact max_le (by linarith) (le_trans (min_le_right _ _) hgain)
  · rw [juce.jlimit_eq _ _ _ hlo, min_eq_right (by linarith), max_eq_left (by linarith)]

/-- C5 amended, at the example history with the ceiling enabled and bound 2. -/
theorem getDiff_ceiling_then_clamp_witness :
    ((exampleMatcher 5 0 true 2).ceil = true ∧ 0 ≤ (exampleMatcher 5 0 true 2).bound ∧
      (exampleMatcher 5 0 true 2).Resolves 1) ∧
    ∃ g, getDiff 1 (exampleMatcher 5 0 true 2)
        = some (g, { exampleMatcher 5 0 true 2 with
            prev_id := (exampleMatcher 5 0 true 2).index_id 1 }) ∧
      g ≤ max (-(exampleSnapshot 10).m_peak) (-(exampleMatcher 5 0 true 2).bound) ∧
      ((exampleSnapshot 10).m_peak ≤ (exampleMatcher 5 0 true 2).bound →
        g ≤ -(exampleSnapshot 10).m_peak) ∧
      ((exampleMatcher 5 0 true 2).bound < (exampleSnapshot 10).m_peak →
        g = -(exampleMatcher 5 0 true 2).bound) :=
  ⟨⟨rfl, by decide, by decide⟩,
    getDiff_ceiling_then_clamp 1 (exampleMatcher 5 0 true 2) 1 (exampleSnapshot 10) rfl
      (by decide) (by decide) (by decide) (by decide) (by decide)⟩

/-- C6: for a non-empty history, whatever the cursor and the policy, when the published
position is `<` the first snapshot's position or `>=` the last snapshot's position, `getDiff`
returns exactly 0 and leaves the state, cursor hint included, as it was. In particular a
tracker reset at any position `P` returns 0 at every position `q`. -/
theorem getDiff_neutral_outside (sv : Int) (m : Matcher) :
    (∀ f b, m.diffs.head? = some f → m.diffs.getLast? = some b →
      (m.m_position < f.getPosition ∨ b.getPosition ≤ m.m_position) →
      getDiff sv m = some (0, m)) ∧
    ∀ P q, getDiff sv (((m.setPosition P).reset).setPosition q)
      = some (0, ((m.setPosition P).reset).setPosition q) := by
  have h1 : ∀ (m : Matcher) f b, m.diffs.head? = some f → m.diffs.getLast? = some b →
      (m.m_position < f.getPosition ∨ b.getPosition ≤ m.m_position) →
      getDiff sv m = some (0, m) := by
    intro m f b hf hb hq
    have hq' : m.m_position < f.getPosition ∨ m.m_position ≥ b.getPosition := hq
    simp only [getDiff, hf, hb, hq', if_true]
  refine ⟨h1 m, fun P q => ?_⟩
  refine h1 _ ⟨getEmptyLoudness, getEmptyLoudness, 0, P⟩
    ⟨getEmptyLoudness, getEmptyLoudness, 0, P⟩ rfl rfl ?_
  show q < P ∨ P ≤ q
  exact lt_or_le q P

/-- C6, at the example history: position 20 equals the last snapshot's position, position -1
is before the first one, and a tracker reset at 7 is neutral at 6, 7 and 8. -/
theorem getDiff_neutral_outside_witness :
    getDiff 1 (exampleMatcher 20 2 false 100) = some (0, exampleMatcher 20 2 false 100) ∧
    getDiff 1 (exampleMatcher (-1) 2 false 100) = some (0, exampleMatcher (-1) 2 false 100) ∧
    (∀ q, getDiff 1 ((((exampleMatcher 0 2 false 100).setPosition 7).reset).setPosition q)
      = some (0, (((exampleMatcher 0 2 false 100).setPosition 7).reset).setPosition q)) :=
  ⟨(getDiff_neutral_outside 1 (exampleMatcher 20 2 false 100)).1 _ _ rfl rfl
      (Or.inr (by decide)),
    (getDiff_neutral_outside 1 (exampleMatcher (-1) 2 false 100)).1 _ _ rfl rfl
      (Or.inl (by decide)),
    fun q => (getDiff_neutral_outside 1 (exampleMatcher 0 2 false 100)).2 7 q⟩

theorem exampleDecode_exampleEncode (ts : List Translator) :
    exampleDecode (exampleEncode ts) = ts := by
  unfold exampleDecode exampleEncode
  have : (String.mk (List.replicate (Encodable.encode ts) 'a')).length = Encodable.encode ts := by
    show (List.replicate (Encodable.encode ts) 'a').length = _
    exact List.length_replicate _ _
  rw [this, Encodable.encodek]
  rfl

/-- In a history with strictly increasing positions, popping the trailing snapshots whose
position is `>= p` leaves exactly the snapshots whose position is `< p`. -/
theorem rdropWhile_eq_filter (p : Int) (l : List LoudnessPos) (hs : StrictlyIncreasing l) :
    l.rdropWhile (fun d => decide (d.getPosition ≥ p))
      = l.filter (fun d => decide (d.getPosition < p)) := by
  induction l using List.reverseRecOn with
  | nil => rfl
  | append_singleton l a ih =>
    unfold StrictlyIncreasing at hs
    rw [List.pairwise_append] at hs
    obtain ⟨hl, _, hla⟩ := hs
    by_cases hap : a.getPosition ≥ p
    · rw [List.rdropWhile_concat_pos _ _ _ (by simpa using hap), ih hl, List.filter_append]
      have : List.filter (fun d => decide (d.getPosition < p)) [a] = [] := by
        simp [List.filter_cons]; omega
      rw [this, List.append_nil]
    · rw [List.rdropWhile_concat_neg _ _ _ (by simpa using hap)]
      symm
      rw [List.filter_eq_self]
      intro d hd
      rcases List.mem_append.mp hd with h | h
      · have := hla d h a (List.mem_singleton_self a)
        simp only [decide_eq_true_eq]; omega
      · rw [List.mem_singleton.mp h]
        simp only [decide_eq_true_eq]; omega

theorem learnDiff_strictlyIncreasing (m : Matcher) (mainL targetL : List FloatType)
    (mainPeak : FloatType) (hs : StrictlyIncreasing m.diffs) :
    StrictlyIncreasing (m.learnDiff mainL targetL mainPeak).diffs := by
  show StrictlyIncreasing (_ ++ _)
  rw [rdropWhile_eq_filter _ _ hs]
  unfold StrictlyIncreasing at hs ⊢
  rw [List.pairwise_append]
  refine ⟨hs.sublist (List.filter_sublist _), List.pairwise_singleton _ _, fun a ha b hb => ?_⟩
  rw [List.mem_singleton.mp hb]
  have := (List.mem_filter.mp ha).2
  simpa using this

theorem getDiffLoop_diffs (sv : Int) (m : Matcher) (fuel : Nat) :
    ∀ s g m', getDiffLoop sv m s fuel = some (g, m') → m'.diffs = m.diffs ∧
      m'.m_position = m.m_position := by
  induction fuel with
  | zero =>
    intro s g m' h
    simp only [getDiffLoop, Option.some.injEq, Prod.mk.injEq] at h
    rw [← h.2]; exact ⟨rfl, rfl⟩
  | succ k ih =>
    intro s g m' h
    unfold getDiffLoop at h
    split at h
    · cases h
    · split at h
      · split at h
        · cases h
        · split at h
          · split at h
            · cases h
            · simp only [Option.some.injEq, Prod.mk.injEq] at h
              rw [← h.2]; exact ⟨rfl, rfl⟩
          · exact ih _ _ _ h
      · exact ih _ _ _ h

theorem getDiff_diffs (sv : Int) (m m' : Matcher) (g : FloatType)
    (h : getDiff sv m = some (g, m')) : m'.diffs = m.diffs := by
  unfold getDiff at h
  split at h
  · split at h
    · simp only [Option.some.injEq, Prod.mk.injEq] at h
      rw [← h.2]
    · exact (getDiffLoop_diffs sv m _ _ _ _ h).1
  · cases h

/-- C7: for a history with strictly increasing positions and a published position `p`,
after `learnDiff(mainL, targetL, mainPeak)` the history is exactly the previous snapshots
whose position is `< p`, in their original order, followed by the new snapshot
`(mainL, targetL, mainPeak, p)`; no previous snapshot with position `>= p` is kept, and the
other members are untouched. -/
theorem learnDiff_truncates (m : Matcher) (mainL targetL : List FloatType)
    (mainPeak : FloatType) (hs : StrictlyIncreasing m.diffs) :
    m.learnDiff mainL targetL mainPeak =
      { m with diffs := m.diffs.filter (fun d => decide (d.getPosition < m.m_position))
          ++ [⟨mainL, targetL, mainPeak, m.m_position⟩] } := by
  unfold learnDiff
  rw [rdropWhile_eq_filter _ _ hs]

/-- C7, the spec's example: snapshots learned at 100, 200 and 300, then `learnDiff` at 150,
leave exactly the snapshot learned at 100 and the new one at 150. -/
theorem learnDiff_truncates_witness :
    StrictlyIncreasing (exampleLearned.setPosition 150).diffs ∧
    (exampleLearned.diffs.map LoudnessPos.getPosition = [100, 200, 300]) ∧
    ((exampleLearned.setPosition 150).learnDiff [-9, -9, -9] [-7, -7, -7] 2).diffs
      = [exampleSnapshot 100, ⟨[-9, -9, -9], [-7, -7, -7], 2, 150⟩] := by
  refine ⟨by decide, by decide, ?_⟩
  rw [learnDiff_truncates _ _ _ _ (by decide)]
  decide

/-- C8: in every state reachable from `reset()` by any sequence of `setPosition`, policy
setters, `learnDiff`, `getDiff` and `reset`, the positions of the history are strictly
increasing. -/
theorem reachable_strictlyIncreasing (sv : Int) (m : Matcher) (h : Reachable sv m) :
    StrictlyIncreasing m.diffs := by
  induction h with
  | reset m => exact List.pairwise_singleton _ _
  | setPosition m pos _ ih => exact ih
  | setCeil m f _ ih => exact ih
  | setSideID m ID _ ih => exact ih
  | setLoudnessID m ID _ ih => exact ih
  | setBound m v _ ih => exact ih
  | setTarget m v _ ih => exact ih
  | learnDiff m mainL targetL mainPeak _ ih =>
    exact learnDiff_strictlyIncreasing m mainL targetL mainPeak ih
  | getDiff m m' gain _ hg ih => rw [getDiff_diffs sv m m' gain hg]; exact ih

/-- C8, at a run that moves the position forward and then back: reset at 5, learn at 100,
learn at 200, learn at 150. -/
theorem reachable_strictlyIncreasing_witness :
    Reachable 1 exampleRun ∧ StrictlyIncreasing exampleRun.diffs ∧
    exampleRun.diffs.map LoudnessPos.getPosition = [5, 100, 150] :=
  have hr : Reachable 1 exampleRun :=
    .learnDiff _ _ _ _ (.setPosition _ _ (.learnDiff _ _ _ _ (.setPosition _ _
      (.learnDiff _ _ _ _ (.setPosition _ _ (.reset _))))))
  ⟨hr, reachable_strictlyIncreasing 1 _ hr, by decide⟩

theorem LoudnessPos.toStruct_roundtrip (s : LoudnessPos) (hwf : s.WellFormed) :
    ∃ t, s.toStruct = some t ∧ LoudnessPos.ofTranslator t = s := by
  obtain ⟨mainL, targetL, peak, position⟩ := s
  obtain ⟨h1, h2⟩ := hwf
  simp only at h1 h2
  match mainL, targetL, h1, h2 with
  | [m0, m1, m2], [t0, t1, t2], _, _ =>
    refine ⟨_, rfl, ?_⟩
    simp [LoudnessPos.ofTranslator, List.ofFn_succ]

theorem mapM_toStruct (l : List LoudnessPos) (hwf : ∀ s ∈ l, s.WellFormed) :
    ∃ ts, l.mapM LoudnessPos.toStruct = some ts ∧ ts.map LoudnessPos.ofTranslator = l := by
  induction l with
  | nil => exact ⟨[], rfl, rfl⟩
  | cons a l ih =>
    obtain ⟨t, ht, hta⟩ := a.toStruct_roundtrip (hwf a (List.mem_cons_self a l))
    obtain ⟨ts, hts, htl⟩ := ih (fun s hs => hwf s (List.mem_cons_of_mem a hs))
    refine ⟨t :: ts, ?_, ?_⟩
    · rw [List.mapM_cons, ht, hts]; rfl
    · simp [hta, htl]

theorem reachable_ne_nil (sv : Int) (m : Matcher) (h : Reachable sv m) : m.diffs ≠ [] := by
  induction h with
  | reset m => exact List.cons_ne_nil _ _
  | setPosition m pos _ ih => exact ih
  | setCeil m f _ ih => exact ih
  | setSideID m ID _ ih => exact ih
  | setLoudnessID m ID _ ih => exact ih
  | setBound m v _ ih => exact ih
  | setTarget m v _ ih => exact ih
  | learnDiff m mainL targetL mainPeak _ ih =>
    show _ ++ _ ≠ []
    simp
  | getDiff m m' gain _ hg ih => rw [getDiff_diffs sv m m' gain hg]; exact ih

/-- C9 fails as stated: a newly constructed `Matcher` has an empty history, its persisted form
is the encoding of zero records, and `fromString` of that form leaves an empty history, here
with the lossless codec of the examples, in a tracker whose history had three snapshots. -/
theorem history_empty_after_construction :
    (Matcher.new false 0 0 2 0).diffs = [] ∧
    (Matcher.new false 0 0 2 0).toString exampleEncode = some (exampleEncode []) ∧
    (exampleMatcher 5 0 false 2).diffs.length = 3 ∧
    ((exampleMatcher 5 0 false 2).fromString exampleDecode (exampleEncode [])).diffs = [] := by
  refine ⟨rfl, rfl, rfl, ?_⟩
  unfold fromString
  simp only [exampleDecode_exampleEncode, List.map_nil]

/-- C9, amended: the history is non-empty after every call of `reset` and of `learnDiff`,
whatever it was before; `getDiff` leaves the history as it is; so the history is non-empty in
every state reached from `reset()` by `setPosition`, the policy setters, `learnDiff`,
`getDiff` and `reset`. A newly constructed `Matcher` has an empty history, and after
`fromString` the history has exactly one snapshot per decoded record. -/
theorem history_nonempty_once_reset (sv : Int) (m : Matcher) :
    m.reset.diffs ≠ [] ∧
    (∀ mainL targetL mainPeak, (m.learnDiff mainL targetL mainPeak).diffs ≠ []) ∧
    (∀ g m', getDiff sv m = some (g, m') → m'.diffs = m.diffs) ∧
    (Reachable sv m → m.diffs ≠ []) ∧
    (∀ c s l b t, (Matcher.new c s l b t).diffs = []) ∧
    (∀ (dec : String → List Translator) str,
      (m.fromString dec str).diffs.length = (dec str).length) := by
  refine ⟨List.cons_ne_nil _ _, fun a b c => ?_, fun g m' h => getDiff_diffs sv m m' g h,
    reachable_ne_nil sv m, fun _ _ _ _ _ => rfl, fun dec str => ?_⟩
  · show _ ++ _ ≠ []
    simp
  · show ((dec str).map _).length = _
    exact List.length_map _ _

/-- C9 amended, at the example run: its history has three snapshots, and a query leaves it. -/
theorem history_nonempty_once_reset_witness :
    Reachable 1 exampleRun ∧ exampleRun.diffs ≠ [] ∧
    ∀ g m', getDiff 1 exampleRun = some (g, m') → m'.diffs = exampleRun.diffs :=
  have hr : Reachable 1 exampleRun :=
    .learnDiff _ _ _ _ (.setPosition _ _ (.learnDiff _ _ _ _ (.setPosition _ _
      (.learnDiff _ _ _ _ (.setPosition _ _ (.reset _))))))
  ⟨hr, (history_nonempty_once_reset 1 exampleRun).2.2.2.1 hr,
    (history_nonempty_once_reset 1 exampleRun).2.2.1⟩

/-- C10: given a lossless codec, for every history (of any length, so of 0 to 50 snapshots)
whose snapshots each hold N = 3 main-loudness and 3 target-loudness values, `toString`
produces a string, and `fromString` of that string, in any tracker, yields a history equal
to the original; and at record level, constructing a `LoudnessPos` from `toStruct(s)` gives
back `s`, all four members included. -/
theorem toString_fromString_roundtrip (enc : List Translator → String)
    (dec : String → List Translator) (hcodec : ∀ ts, dec (enc ts) = ts) (m m' : Matcher)
    (hwf : ∀ s ∈ m.diffs, s.WellFormed) :
    (∃ str, m.toString enc = some str ∧ (m'.fromString dec str).diffs = m.diffs) ∧
    ∀ s : LoudnessPos, s.WellFormed → ∃ t, s.toStruct = some t ∧
      (LoudnessPos.ofTranslator t).m_mainLoudness = s.m_mainLoudness ∧
      (LoudnessPos.ofTranslator t).m_targetLoudness = s.m_targetLoudness ∧
      (LoudnessPos.ofTranslator t).m_peak = s.m_peak ∧
      (LoudnessPos.ofTranslator t).m_position = s.m_position := by
  constructor
  · obtain ⟨ts, hts, htl⟩ := mapM_toStruct m.diffs hwf
    refine ⟨enc ts, ?_, ?_⟩
    · unfold Matcher.toString
      rw [hts]; rfl
    · unfold fromString
      simp only [hcodec, htl]
  · intro s hs
    obtain ⟨t, ht, hts⟩ := s.toStruct_roundtrip hs
    exact ⟨t, ht, by rw [hts], by rw [hts], by rw [hts], by rw [hts]⟩

/-- C10, at the example history and the lossless codec of the examples, loading into a newly
constructed tracker. -/
theorem toString_fromString_roundtrip_witness :
    (∀ ts, exampleDecode (exampleEncode ts) = ts) ∧
    (∀ s ∈ (exampleMatcher 5 0 false 2).diffs, s.WellFormed) ∧
    (exampleMatcher 5 0 false 2).diffs.length ≤ 50 ∧
    ∃ str, (exampleMatcher 5 0 false 2).toString exampleEncode = some str ∧
      ((Matcher.new false 0 0 2 0).fromString exampleDecode str).diffs
        = (exampleMatcher 5 0 false 2).diffs :=
  ⟨exampleDecode_exampleEncode, by decide, by decide,
    (toString_fromString_roundtrip exampleEncode exampleDecode exampleDecode_exampleEncode
      (exampleMatcher 5 0 false 2) (Matcher.new false 0 0 2 0) (by decide)).1⟩

theorem getDiff_of_nil (sv : Int) (m : Matcher) (h : m.diffs = []) : getDiff sv m = none := by
  unfold getDiff
  rw [h]
  rfl

theorem resolveAt_eq_some_iff (sv : Int) (m m' : Matcher) (j : Nat) (g : FloatType)
    (h : resolveAt sv m j = some (g, m')) :
    m' = { m with prev_id := j } ∧ ∃ d gain, m.diffs[j]? = some d ∧
      d.getGain (toSizeT m.loudnessID) m.ceil (m.sideID == sv) m.target = some gain ∧
      g = juce.jlimit (-m.bound) m.bound gain := by
  unfold resolveAt at h
  split at h
  · cases h
  · next d hd =>
    split at h
    · cases h
    · next gain hg =>
      simp only [Option.some.injEq, Prod.mk.injEq] at h
      exact ⟨h.2.symm, d, gain, hd, hg, h.1.symm⟩

/-- Whatever `getDiff` returns, the state it leaves is the state it found with, at most, a new
cursor hint, and a new cursor hint is the `index_id` the search resolved. -/
theorem getDiff_eq_some_cases (sv : Int) (m m' : Matcher) (g : FloatType)
    (h : getDiff sv m = some (g, m')) :
    (g = 0 ∧ m' = m) ∨ ∃ t, m.Resolves t ∧ m' = { m with prev_id := m.index_id t } := by
  have hne : m.diffs ≠ [] := by
    intro e
    rw [getDiff_of_nil sv m e] at h
    cases h
  rcases resolves_or_neutral sv m hne with ⟨t, ht⟩ | ⟨_, h0⟩
  · right
    rw [getDiff_of_resolves sv m t ht] at h
    exact ⟨t, ht, (resolveAt_eq_some_iff sv m m' _ g h).1⟩
  · left
    rw [h0] at h
    simp only [Option.some.injEq, Prod.mk.injEq] at h
    exact ⟨h.1.symm, h.2.symm⟩

/-- On a non-empty history of well-formed snapshots, with a valid definition index, `getDiff`
returns. -/
theorem getDiff_isSome (sv : Int) (m : Matcher) (hne : m.diffs ≠ [])
    (hwf : ∀ s ∈ m.diffs, s.WellFormed) (hid : toSizeT m.loudnessID < loudnessNUM) :
    ∃ g m', getDiff sv m = some (g, m') := by
  rcases resolves_or_neutral sv m hne with ⟨t, ht⟩ | ⟨_, h0⟩
  · obtain ⟨d, hd⟩ : ∃ d, m.diffs[m.index_id t]? = some d :=
      ⟨_, List.getElem?_eq_getElem (index_id_lt m t hne)⟩
    have hdm : d ∈ m.diffs := by
      obtain ⟨h, rfl⟩ := List.getElem?_eq_some.mp hd
      exact List.getElem_mem h
    obtain ⟨gain, _, hr⟩ := resolveAt_eq_some sv m _ d hd (hwf d hdm) hid
    exact ⟨_, _, by rw [getDiff_of_resolves sv m t ht, hr]⟩
  · exact ⟨0, m, h0⟩

/-- C11: with the decoder the spec describes, for every string whose decoded byte length is
not an exact multiple of one record's byte size, `fromString` fails with the decode error,
and it leaves the history empty (cleared before the decoder ran): no record, partial or
out of bounds, is stored. -/
theorem fromString_rejects_bad_length (decodedBytes : String → List (Fin 256))
    (recordSize : Nat) (readRecord : List (Fin 256) → Translator) (m : Matcher) (str : String)
    (h : (decodedBytes str).length % recordSize ≠ 0) :
    m.fromStringThrowing (ZLDsp.Base64StringToVector decodedBytes recordSize readRecord) str
      = (some DecodeError.lengthNotMultipleOfRecordSize, { m with diffs := [] }) := by
  unfold fromStringThrowing ZLDsp.Base64StringToVector
  rw [if_pos h]

/-- C11, at a string of three bytes and the record size 36 of `float` records. -/
theorem fromString_rejects_bad_length_witness :
    (exampleBytes "abc").length % LoudnessPos.getSize 4 ≠ 0 ∧
    (exampleMatcher 5 0 false 2).fromStringThrowing
        (ZLDsp.Base64StringToVector exampleBytes (LoudnessPos.getSize 4) exampleRecord) "abc"
      = (some DecodeError.lengthNotMultipleOfRecordSize,
          { exampleMatcher 5 0 false 2 with diffs := [] }) :=
  ⟨by decide, fromString_rejects_bad_length exampleBytes (LoudnessPos.getSize 4) exampleRecord
    (exampleMatcher 5 0 false 2) "abc" (by decide)⟩

/-- C12, the code at an empty history: `getDiff` starts with `diffs.front()`, which reads the
first element of a vector that has none, so the call is undefined, whatever the position, the
cursor hint and the policy; it does not return 0. This is so for a newly constructed `Matcher`
and for one loaded by `fromString` from zero records. -/
theorem getDiff_empty_history (sv : Int) (m : Matcher) (q : Int) (c : Bool) (s l : Int)
    (b t : FloatType) (dec : String → List Translator) (str : String) :
    getDiff sv { m with diffs := [] } = none ∧
    getDiff sv ((Matcher.new c s l b t).setPosition q) = none ∧
    getDiff sv (m.fromString (fun _ => []) str) = none ∧
    (dec str = [] → getDiff sv (m.fromString dec str) = none) := by
  refine ⟨rfl, rfl, rfl, fun h => ?_⟩
  apply getDiff_of_nil
  show (dec str).map _ = []
  rw [h]; rfl

/-- C13: for every published position `P`, after `reset()` the history is exactly one snapshot
with position `P`, zero peak and all-zero main and target loudness values, and the cursor hint
is 0; the published position and the five policy members are as before; and the history and
cursor hint held before do not matter. -/
theorem reset_seeds_neutral_snapshot (m : Matcher) (P : Int) :
    ((m.setPosition P).reset).diffs = [⟨[0, 0, 0], [0, 0, 0], 0, P⟩] ∧
    ((m.setPosition P).reset).prev_id = 0 ∧
    ((m.setPosition P).reset).m_position = P ∧
    ((m.setPosition P).reset).ceil = m.ceil ∧
    ((m.setPosition P).reset).sideID = m.sideID ∧
    ((m.setPosition P).reset).loudnessID = m.loudnessID ∧
    ((m.setPosition P).reset).bound = m.bound ∧
    ((m.setPosition P).reset).target = m.target ∧
    ∀ history cursor,
      (({ m with diffs := history, prev_id := cursor } : Matcher).setPosition P).reset
        = (m.setPosition P).reset :=
  ⟨rfl, rfl, rfl, rfl, rfl, rfl, rfl, rfl, fun _ _ => rfl⟩

/-- C14: when `getDiff` returns, the history, the published position and the five policy
members are as before the call; only the cursor hint can differ, and it differs only when the
search resolved an interval, whose `index_id` it then is. On a non-empty history of
well-formed snapshots with a valid definition index `getDiff` does return. -/
theorem getDiff_changes_cursor_only (sv : Int) (m : Matcher) :
    (∀ g m', getDiff sv m = some (g, m') →
      m'.diffs = m.diffs ∧ m'.m_position = m.m_position ∧ m'.ceil = m.ceil ∧
      m'.sideID = m.sideID ∧ m'.loudnessID = m.loudnessID ∧ m'.bound = m.bound ∧
      m'.target = m.target ∧ m' = { m with prev_id := m'.prev_id } ∧
      (m'.prev_id ≠ m.prev_id → ∃ t, m.Resolves t ∧ m'.prev_id = m.index_id t)) ∧
    (m.diffs ≠ [] → (∀ s ∈ m.diffs, s.WellFormed) → toSizeT m.loudnessID < loudnessNUM →
      ∃ g m', getDiff sv m = some (g, m')) := by
  refine ⟨fun g m' h => ?_, getDiff_isSome sv m⟩
  rcases getDiff_eq_some_cases sv m m' g h with ⟨_, rfl⟩ | ⟨t, ht, rfl⟩
  · exact ⟨rfl, rfl, rfl, rfl, rfl, rfl, rfl, rfl, fun hne => absurd rfl hne⟩
  · exact ⟨rfl, rfl, rfl, rfl, rfl, rfl, rfl, rfl, fun _ => ⟨t, ht, rfl⟩⟩

/-- C14, at the example history: the query at position 5 with cursor hint 0 returns, and the
state it leaves differs from the state before in the cursor hint only, now 1. -/
theorem getDiff_changes_cursor_only_witness :
    (∃ g m', getDiff 1 (exampleMatcher 5 0 false 2) = some (g, m')) ∧
    ∀ g m', getDiff 1 (exampleMatcher 5 0 false 2) = some (g, m') →
      m' = { exampleMatcher 5 0 false 2 with prev_id := m'.prev_id } :=
  ⟨(getDiff_changes_cursor_only 1 (exampleMatcher 5 0 false 2)).2 (by decide) (by decide)
      (by decide),
    fun g m' h => ((getDiff_changes_cursor_only 1 (exampleMatcher 5 0 false 2)).1 g m' h).2.2.2.2.2.2.2.1⟩

/-- Once the bounds check is passed and the cursor arithmetic does not wrap past `2 ^ 64`, the
search resolves at some shift, whatever the order of the positions. -/
theorem exists_resolves (m : Matcher) (hc : m.prev_id + m.diffs.length ≤ SIZE_MOD)
    (hr : m.inRange = true) :
    ∃ t, m.Resolves t ∧ IsInterval m.diffs m.m_position (m.index_id t) := by
  obtain ⟨f, b, hf, hb, h1, h2⟩ := (inRange_eq_true_iff m).mp hr
  have hne := ne_nil_of_inRange m hr
  have hf0 : m.diffs[0]? = some f := by rw [← List.head?_eq_getElem?]; exact hf
  obtain ⟨i, hi⟩ := exists_isInterval m.m_position m.diffs f b hf hb h1 h2
  obtain ⟨t0, ht0, hti⟩ := exists_shift m i hi.lt_length hc
  have hhit : m.hit t0 = true := (hit_iff_isInterval m t0 f hf0 h1 (by omega)).mpr (hti ▸ hi)
  rcases resolves_or_neutral 0 m hne with ⟨t, ht⟩ | ⟨hno, _⟩
  · exact ⟨t, ht, (hit_iff_isInterval m t f hf0 h1 (by have := ht.2.1; omega)).mp ht.2.2.1⟩
  · exfalso
    rcases hno with h | h
    · rw [hr] at h; cases h
    · rw [h t0 ht0] at hhit; cases hhit

/-- C15 fails as stated: no tracker, with a history in order or not, whose cursor hint `c` has
`c + length <= 2 ^ 64` (every hint the code stores has) passes the bounds check and then
fails the loop test at every shift. -/
theorem no_fall_through_after_bounds_check :
    ¬ ∃ m : Matcher, m.prev_id + m.diffs.length ≤ SIZE_MOD ∧ ¬ StrictlyIncreasing m.diffs ∧
      m.inRange = true ∧ ∀ t, t < m.diffs.length → m.hit t = false := by
  rintro ⟨m, hc, _, hr, hall⟩
  obtain ⟨t, ht, _⟩ := exists_resolves m hc hr
  have := hall t ht.2.1
  rw [ht.2.2.1] at this
  cases this

/-- C15, amended: for every history that passes the bounds check
(`first.position <= q < last.position`), with positions in order or not, and every cursor
hint `c` with `c + length <= 2 ^ 64`, the circular search finds an adjacent pair
`history[i-1].position <= q < history[i].position`: `getDiff` returns the clamped gain of
`history[i]` through the `return` inside the loop, not through the one after it. -/
theorem getDiff_always_finds_pair (sv : Int) (m : Matcher)
    (hc : m.prev_id + m.diffs.length ≤ SIZE_MOD) (hr : m.inRange = true)
    (hwf : ∀ s ∈ m.diffs, s.WellFormed) (hid : toSizeT m.loudnessID < loudnessNUM) :
    ∃ t d gain, m.Resolves t ∧ IsInterval m.diffs m.m_position (m.index_id t) ∧
      m.diffs[m.index_id t]? = some d ∧
      d.getGain (toSizeT m.loudnessID) m.ceil (m.sideID == sv) m.target = some gain ∧
      getDiff sv m
        = some (juce.jlimit (-m.bound) m.bound gain, { m with prev_id := m.index_id t }) := by
  obtain ⟨t, ht, hi⟩ := exists_resolves m hc hr
  obtain ⟨d, hd⟩ : ∃ d, m.diffs[m.index_id t]? = some d :=
    ⟨_, List.getElem?_eq_getElem hi.lt_length⟩
  have hdm : d ∈ m.diffs := by
    obtain ⟨h, rfl⟩ := List.getElem?_eq_some.mp hd
    exact List.getElem_mem h
  obtain ⟨gain, hg, hres⟩ := resolveAt_eq_some sv m _ d hd (hwf d hdm) hid
  exact ⟨t, d, gain, ht, hi, hd, hg, by rw [getDiff_of_resolves sv m t ht, hres]⟩

/-- C15 amended, at a malformed history, positions 0, 30, 10, 20: position 15 passes the
bounds check and the search, from cursor hint 0, resolves the pair of positions 0 and 30. -/
theorem getDiff_always_finds_pair_witness :
    ¬ StrictlyIncreasing malformedMatcher.diffs ∧
    (malformedMatcher.prev_id + malformedMatcher.diffs.length ≤ SIZE_MOD ∧
      malformedMatcher.inRange = true) ∧
    ∃ t d gain, malformedMatcher.Resolves t ∧
      IsInterval malformedMatcher.diffs malformedMatcher.m_position
        (malformedMatcher.index_id t) ∧
      malformedMatcher.diffs[malformedMatcher.index_id t]? = some d ∧
      d.getGain (toSizeT malformedMatcher.loudnessID) malformedMatcher.ceil
        (malformedMatcher.sideID == 1) malformedMatcher.target = some gain ∧
      getDiff 1 malformedMatcher
        = some (juce.jlimit (-malformedMatcher.bound) malformedMatcher.bound gain,
            { malformedMatcher with prev_id := malformedMatcher.index_id t }) :=
  ⟨by decide, ⟨by decide, by decide⟩,
    getDiff_always_finds_pair 1 malformedMatcher (by decide) (by decide) (by decide)
      (by decide)⟩

/-- A query at or after the last snapshot's position returns the neutral gain and leaves the
state as it was. -/
theorem getDiff_of_last_le (sv : Int) (m : Matcher) (b : LoudnessPos)
    (hb : m.diffs.getLast? = some b) (h : b.getPosition ≤ m.m_position) :
    getDiff sv m = some (0, m) := by
  have hne : m.diffs ≠ [] := by
    intro e; rw [e] at hb; simp at hb
  apply getDiff_of_not_inRange sv m hne
  cases hr : m.inRange with
  | false => rfl
  | true =>
    obtain ⟨f, b', _, hb', _, h2⟩ := (inRange_eq_true_iff m).mp hr
    rw [hb] at hb'
    cases hb'
    omega

/-- A query before the first snapshot's position returns the neutral gain and leaves the
state as it was. -/
theorem getDiff_of_lt_first (sv : Int) (m : Matcher) (f : LoudnessPos)
    (hf : m.diffs.head? = some f) (h : m.m_position < f.getPosition) :
    getDiff sv m = some (0, m) := by
  have hne : m.diffs ≠ [] := by
    intro e; rw [e] at hf; simp at hf
  apply getDiff_of_not_inRange sv m hne
  cases hr : m.inRange with
  | false => rfl
  | true =>
    obtain ⟨f', _, hf', _, h1, _⟩ := (inRange_eq_true_iff m).mp hr
    rw [hf] at hf'
    cases hf'
    omega

/-- C16 fails as stated: over the example history, positions 0, 10, 20, with the cursor hint
2 left by an earlier query, the call at `q1 = -5` is out of range and leaves the hint at 2,
and the call at `q2 = 5 >= q1` resolves the first interval and leaves the hint at 1. -/
theorem cursor_decreases_after_out_of_range_query :
    StrictlyIncreasing (exampleMatcher (-5) 2 false 100).diffs ∧ (-5 : Int) ≤ 5 ∧
    getDiff 1 ((exampleMatcher 0 2 false 100).setPosition (-5))
      = some (0, exampleMatcher (-5) 2 false 100) ∧
    (exampleMatcher (-5) 2 false 100).prev_id = 2 ∧
    getDiff 1 ((exampleMatcher (-5) 2 false 100).setPosition 5)
      = some (6, exampleMatcher 5 1 false 100) ∧
    (exampleMatcher 5 1 false 100).prev_id = 1 ∧
    ¬ ((exampleMatcher (-5) 2 false 100).prev_id ≤ (exampleMatcher 5 1 false 100).prev_id) := by
  refine ⟨by decide, by decide, by decide, rfl, ?_, rfl, by decide⟩
  rw [getDiff_of_resolves 1 _ 2 (by decide)]
  simp [resolveAt, exampleMatcher, exampleHistory, exampleSnapshot, LoudnessPos.getGain,
    juce.jlimit, index_id, toSizeT, setPosition]
  norm_num

/-- C16, amended: for a fixed non-empty history with strictly increasing positions, every
initial cursor hint and every pair of positions `q1 <= q2` such that `first.position <= q1`
or the initial hint is at most 1 (as after `reset`), when `getDiff` is called at `q1` and
then at `q2` the cursor hint after the second call is `>=` the cursor hint after the first
call. The sizes are those of a vector: twice the length, and the initial hint plus the length,
stay within `size_t`. -/
theorem cursor_monotone_from_first_position (sv : Int) (m : Matcher) (q1 q2 : Int)
    (f : LoudnessPos) (hs : StrictlyIncreasing m.diffs) (hwf : ∀ s ∈ m.diffs, s.WellFormed)
    (hid : toSizeT m.loudnessID < loudnessNUM)
    (hc : m.prev_id + m.diffs.length ≤ SIZE_MOD)
    (hn : m.diffs.length + m.diffs.length ≤ SIZE_MOD)
    (hf : m.diffs.head? = some f) (h1 : f.getPosition ≤ q1 ∨ m.prev_id ≤ 1) (h12 : q1 ≤ q2) :
    ∃ g1 m1 g2 m2, getDiff sv (m.setPosition q1) = some (g1, m1) ∧
      getDiff sv (m1.setPosition q2) = some (g2, m2) ∧ m1.prev_id ≤ m2.prev_id := by
  have hne : m.diffs ≠ [] := by
    intro e; rw [e] at hf; simp at hf
  obtain ⟨b, hb⟩ : ∃ b, m.diffs.getLast? = some b := ⟨_, List.getLast?_eq_getLast _ hne⟩
  -- the second call, from any state over the same history
  have second : ∀ m1 : Matcher, m1.diffs = m.diffs → m1.loudnessID = m.loudnessID →
      m1.prev_id + m.diffs.length ≤ SIZE_MOD →
      (∀ i, IsInterval m.diffs q2 i → m1.prev_id ≤ i) →
      ∃ g2 m2, getDiff sv (m1.setPosition q2) = some (g2, m2) ∧ m1.prev_id ≤ m2.prev_id := by
    intro m1 hd hl hc1 hle
    by_cases hq2f : q2 < f.getPosition
    · exact ⟨0, m1.setPosition q2,
        getDiff_of_lt_first sv (m1.setPosition q2) f (by show m1.diffs.head? = _; rw [hd, hf])
          hq2f, le_rfl⟩
    by_cases hq2 : b.getPosition ≤ q2
    · exact ⟨0, m1.setPosition q2,
        getDiff_of_last_le sv (m1.setPosition q2) b (by show m1.diffs.getLast? = _; rw [hd, hb])
          hq2, le_rfl⟩
    · obtain ⟨i, hi⟩ := exists_isInterval q2 m.diffs f b hf hb (by omega) (by omega)
      have hi' : IsInterval (m1.setPosition q2).diffs (m1.setPosition q2).m_position i := by
        show IsInterval m1.diffs q2 i
        rw [hd]; exact hi
      have hres := getDiff_of_isInterval sv (m1.setPosition q2) i
        (by show StrictlyIncreasing m1.diffs; rw [hd]; exact hs)
        (by show m1.prev_id + m1.diffs.length ≤ SIZE_MOD; rw [hd]; exact hc1) hi'
      obtain ⟨d, hdd⟩ : ∃ d, (m1.setPosition q2).diffs[i]? = some d :=
        ⟨_, List.getElem?_eq_getElem hi'.lt_length⟩
      have hdm : d ∈ m.diffs := by
        have hdd' : m.diffs[i]? = some d := by rw [← hd]; exact hdd
        obtain ⟨h, rfl⟩ := List.getElem?_eq_some.mp hdd'
        exact List.getElem_mem h
      obtain ⟨gain, _, hr⟩ := resolveAt_eq_some sv (m1.setPosition q2) i d hdd (hwf d hdm)
        (by show toSizeT m1.loudnessID < _; rw [hl]; exact hid)
      exact ⟨_, _, by rw [hres, hr], hle i hi⟩
  by_cases hq1f : q1 < f.getPosition
  · -- the first call is out of range at the near end: the cursor hint stays, at most 1
    have hfirst := getDiff_of_lt_first sv (m.setPosition q1) f hf hq1f
    have hc1 : m.prev_id ≤ 1 := by
      rcases h1 with h | h
      · omega
      · exact h
    obtain ⟨g2, m2, h2, hle⟩ := second (m.setPosition q1) rfl rfl hc
      (fun i hi => le_trans hc1 hi.1)
    exact ⟨0, m.setPosition q1, g2, m2, hfirst, h2, hle⟩
  have h1 : f.getPosition ≤ q1 := by omega
  by_cases hq1 : b.getPosition ≤ q1
  · -- the first call is out of range at the far end: the cursor hint stays
    have hfirst := getDiff_of_last_le sv (m.setPosition q1) b hb hq1
    have hq2 : b.getPosition ≤ q2 := by omega
    refine ⟨0, m.setPosition q1, 0, (m.setPosition q1).setPosition q2, hfirst, ?_, le_rfl⟩
    exact getDiff_of_last_le sv _ b hb hq2
  · -- the first call resolves the interval of `q1`
    obtain ⟨i1, hi1⟩ := exists_isInterval q1 m.diffs f b hf hb h1 (by omega)
    have hres := getDiff_of_isInterval sv (m.setPosition q1) i1 hs hc hi1
    obtain ⟨d, hdd⟩ : ∃ d, m.diffs[i1]? = some d := ⟨_, List.getElem?_eq_getElem hi1.lt_length⟩
    have hdm : d ∈ m.diffs := by
      obtain ⟨h, rfl⟩ := List.getElem?_eq_some.mp hdd
      exact List.getElem_mem h
    obtain ⟨gain, _, hr⟩ := resolveAt_eq_some sv (m.setPosition q1) i1 d hdd (hwf d hdm) hid
    have hlt := hi1.lt_length
    obtain ⟨g2, m2, h2, hle⟩ := second { m.setPosition q1 with prev_id := i1 } rfl rfl
      (by show i1 + m.diffs.length ≤ SIZE_MOD; omega)
      (fun i hi => by
        show i1 ≤ i
        by_contra hcon
        obtain ⟨_, a1, b1, ha1, _, hqa1, _⟩ := hi1
        obtain ⟨_, a2, b2, _, hb2, _, hqb2⟩ := hi
        have := hs.le_of_le hb2 ha1 (by omega)
        omega)
    exact ⟨_, _, g2, m2, by rw [hres, hr], h2, hle⟩

/-- C16 amended, at the example history: the calls at 5 and then at 15, from cursor hint 2. -/
theorem cursor_monotone_from_first_position_witness :
    (StrictlyIncreasing (exampleMatcher 0 2 false 100).diffs ∧
      (exampleMatcher 0 2 false 100).diffs.head?
        = some ⟨[-15, -15, -15], [-14, -14, -14], 1, 0⟩ ∧
      ((0 : Int) ≤ 5 ∨ (exampleMatcher 0 2 false 100).prev_id ≤ 1) ∧ (5 : Int) ≤ 15) ∧
    ∃ g1 m1 g2 m2, getDiff 1 ((exampleMatcher 0 2 false 100).setPosition 5) = some (g1, m1) ∧
      getDiff 1 (m1.setPosition 15) = some (g2, m2) ∧ m1.prev_id ≤ m2.prev_id :=
  ⟨⟨by decide, rfl, Or.inl (by decide), by decide⟩,
    cursor_monotone_from_first_position 1 (exampleMatcher 0 2 false 100) 5 15
      ⟨[-15, -15, -15], [-14, -14, -14], 1, 0⟩ (by decide) (by decide) (by decide) (by decide)
      (by decide) rfl (Or.inl (by decide)) (by decide)⟩

/-- C17: for a non-empty history of length `n`, every query position and every cursor hint
value (stale or not, wrapping or not), the indices `index_id` and `left_id` of every
iteration are `< n`, so both history accesses find an element; when `prev_id + shift_id = 0`
the left index is `(2 ^ 64 - 1) % n`; and after the call the state is untouched or the cursor
hint is `< n`. On well-formed snapshots with a valid definition index the call returns. -/
theorem getDiff_indices_in_bounds (sv : Int) (m : Matcher) (hne : m.diffs ≠ []) :
    (∀ shift_id, m.index_id shift_id < m.diffs.length ∧ m.left_id shift_id < m.diffs.length ∧
      ∃ d l, m.diffs[m.index_id shift_id]? = some d ∧ m.diffs[m.left_id shift_id]? = some l) ∧
    (m.prev_id = 0 → m.left_id 0 = (2 ^ 64 - 1) % m.diffs.length) ∧
    (∀ g m', getDiff sv m = some (g, m') → m' = m ∨ m'.prev_id < m.diffs.length) ∧
    ((∀ s ∈ m.diffs, s.WellFormed) → toSizeT m.loudnessID < loudnessNUM →
      ∃ g m', getDiff sv m = some (g, m') ∧ (m' = m ∨ m'.prev_id < m.diffs.length)) := by
  have key : ∀ g m', getDiff sv m = some (g, m') → m' = m ∨ m'.prev_id < m.diffs.length := by
    intro g m' h
    rcases getDiff_eq_some_cases sv m m' g h with ⟨_, h0⟩ | ⟨t, _, rfl⟩
    · exact Or.inl h0
    · exact Or.inr (index_id_lt m t hne)
  refine ⟨fun t => ⟨index_id_lt m t hne, left_id_lt m t hne,
      _, _, List.getElem?_eq_getElem (index_id_lt m t hne),
      List.getElem?_eq_getElem (left_id_lt m t hne)⟩, fun h0 => ?_, key, fun hwf hid => ?_⟩
  · unfold left_id
    rw [h0]
    rfl
  · obtain ⟨g, m', h⟩ := getDiff_isSome sv m hne hwf hid
    exact ⟨g, m', h, key g m' h⟩

/-- C17, at the example history of length 3: from the cursor hint 0 the first left index is
`(2 ^ 64 - 1) % 3 = 0`, and the stale cursor hint 7 gives the indices 1 and 0 at shift 0. -/
theorem getDiff_indices_in_bounds_witness :
    (exampleMatcher 5 0 false 2).diffs ≠ [] ∧
    (exampleMatcher 5 0 false 2).left_id 0 = (2 ^ 64 - 1) % 3 ∧
    (exampleMatcher 5 0 false 2).left_id 0 = 0 ∧
    (exampleMatcher 5 7 false 2).index_id 0 = 1 ∧ (exampleMatcher 5 7 false 2).left_id 0 = 0 ∧
    ∀ shift_id, (exampleMatcher 5 7 false 2).index_id shift_id < 3 ∧
      (exampleMatcher 5 7 false 2).left_id shift_id < 3 :=
  ⟨by decide, (getDiff_indices_in_bounds 1 (exampleMatcher 5 0 false 2) (by decide)).2.1 rfl,
    by decide, by decide, by decide,
    fun t => ⟨((getDiff_indices_in_bounds 1 (exampleMatcher 5 7 false 2) (by decide)).1 t).1,
      ((getDiff_indices_in_bounds 1 (exampleMatcher 5 7 false 2) (by decide)).1 t).2.1⟩⟩

/-- C19: in every state, with an empty history or not, and for every published position `p`,
after `learnDiff` the history is non-empty and its last snapshot is the new one, with
position `p`; a `getDiff` issued before the position changes returns exactly 0 and leaves the
state as it is, whatever the policy members are set to before or after `learnDiff`. -/
theorem getDiff_neutral_after_learnDiff (sv : Int) (m : Matcher) (mainL targetL : List FloatType)
    (mainPeak : FloatType) :
    (m.learnDiff mainL targetL mainPeak).diffs ≠ [] ∧
    (m.learnDiff mainL targetL mainPeak).diffs.getLast?
      = some ⟨mainL, targetL, mainPeak, m.m_position⟩ ∧
    (m.learnDiff mainL targetL mainPeak).m_position = m.m_position ∧
    getDiff sv (m.learnDiff mainL targetL mainPeak)
      = some (0, m.learnDiff mainL targetL mainPeak) ∧
    ∀ f s l bd tg,
      getDiff sv ((((((m.learnDiff mainL targetL mainPeak).setCeil f).setSideID s).setLoudnessID
        l).setBound bd).setTarget tg)
      = some (0, (((((m.learnDiff mainL targetL mainPeak).setCeil f).setSideID s).setLoudnessID
        l).setBound bd).setTarget tg) := by
  have hlast : (m.learnDiff mainL targetL mainPeak).diffs.getLast?
      = some ⟨mainL, targetL, mainPeak, m.m_position⟩ := by
    show (_ ++ [_]).getLast? = _
    simp
  refine ⟨?_, hlast, rfl, ?_, fun f s l bd tg => ?_⟩
  · show _ ++ _ ≠ []
    simp
  · exact getDiff_of_last_le sv _ _ hlast (le_refl _)
  · exact getDiff_of_last_le sv _ ⟨mainL, targetL, mainPeak, m.m_position⟩ hlast (le_refl _)

/-- Looking up a history after its first snapshot was replaced by one of the same position:
the same positions everywhere, and the same snapshot everywhere but at index 0. -/
theorem getElem?_swap_head (a1 a2 : LoudnessPos) (rest : List LoudnessPos)
    (hpos : a1.getPosition = a2.getPosition) (i : Nat) (d : LoudnessPos)
    (h : (a1 :: rest)[i]? = some d) :
    ∃ d', (a2 :: rest)[i]? = some d' ∧ d'.getPosition = d.getPosition ∧ (i ≠ 0 → d' = d) := by
  cases i with
  | zero =>
    simp only [List.getElem?_cons_zero, Option.some.injEq] at h
    subst h
    exact ⟨a2, List.getElem?_cons_zero, hpos.symm, fun h => absurd rfl h⟩
  | succ k =>
    simp only [List.getElem?_cons_succ] at h
    exact ⟨d, by simpa using h, rfl, fun _ => rfl⟩

theorem hit_swap_head (m : Matcher) (a1 a2 : LoudnessPos) (rest : List LoudnessPos)
    (hpos : a1.getPosition = a2.getPosition) (t : Nat)
    (h : ({ m with diffs := a1 :: rest } : Matcher).hit t = true) :
    ({ m with diffs := a2 :: rest } : Matcher).hit t = true := by
  obtain ⟨d, l, hd, hl, h1, h2⟩ := (hit_eq_true_iff _ t).mp h
  obtain ⟨d', hd', hdp, _⟩ := getElem?_swap_head a1 a2 rest hpos _ d hd
  obtain ⟨l', hl', hlp, _⟩ := getElem?_swap_head a1 a2 rest hpos _ l hl
  exact (hit_eq_true_iff _ t).mpr ⟨d', l', hd', hl', by rw [hdp]; exact h1, by rw [hlp]; exact h2⟩

theorem inRange_swap_head (m : Matcher) (a1 a2 : LoudnessPos) (rest : List LoudnessPos)
    (hpos : a1.getPosition = a2.getPosition)
    (h : ({ m with diffs := a1 :: rest } : Matcher).inRange = true) :
    ({ m with diffs := a2 :: rest } : Matcher).inRange = true := by
  obtain ⟨f, b, hf, hb, h1, h2⟩ := (inRange_eq_true_iff _).mp h
  rw [List.head?_eq_getElem?] at hf
  rw [List.getLast?_eq_getElem?] at hb
  obtain ⟨f', hf', hfp, _⟩ := getElem?_swap_head a1 a2 rest hpos _ f hf
  obtain ⟨b', hb', hbp, _⟩ := getElem?_swap_head a1 a2 rest hpos _ b hb
  refine (inRange_eq_true_iff _).mpr ⟨f', b', ?_, ?_, by rw [hfp]; exact h1, by rw [hbp]; exact h2⟩
  · rw [List.head?_eq_getElem?]; exact hf'
  · rw [List.getLast?_eq_getElem?]; exact hb'

theorem resolves_swap_head (m : Matcher) (a1 a2 : LoudnessPos) (rest : List LoudnessPos)
    (hpos : a1.getPosition = a2.getPosition) (t : Nat)
    (h : ({ m with diffs := a1 :: rest } : Matcher).Resolves t) :
    ({ m with diffs := a2 :: rest } : Matcher).Resolves t := by
  obtain ⟨h1, h2, h3, h4⟩ := h
  refine ⟨inRange_swap_head m a1 a2 rest hpos h1, h2, hit_swap_head m a1 a2 rest hpos t h3,
    fun u hu => ?_⟩
  cases hh : ({ m with diffs := a2 :: rest } : Matcher).hit u with
  | false => rfl
  | true =>
    have := hit_swap_head m a2 a1 rest hpos.symm u hh
    rw [h4 u hu] at this
    cases this

/-- The index a search resolves is never 0: the test there asks for a position before the
first snapshot's, which the bounds check excluded. -/
theorem index_id_pos_of_resolves (m : Matcher) (t : Nat) (h : m.Resolves t) :
    1 ≤ m.index_id t := by
  obtain ⟨h1, _, h3, _⟩ := h
  obtain ⟨f, _, hf, _, hq, _⟩ := (inRange_eq_true_iff m).mp h1
  obtain ⟨d, _, hd, _, hlt, _⟩ := (hit_eq_true_iff m t).mp h3
  by_contra hc
  have h0 : m.index_id t = 0 := by omega
  rw [h0, ← List.head?_eq_getElem?, hf] at hd
  cases hd
  omega

/-- The two trackers of C18: either both return the neutral gain and keep their state, or
both resolve the same index `j >= 1`, whose snapshot lies in the common tail. -/
theorem getDiff_swap_head (sv : Int) (m : Matcher) (a1 a2 : LoudnessPos)
    (rest : List LoudnessPos) (hpos : a1.getPosition = a2.getPosition) :
    (getDiff sv { m with diffs := a1 :: rest } = some (0, { m with diffs := a1 :: rest }) ∧
      getDiff sv { m with diffs := a2 :: rest } = some (0, { m with diffs := a2 :: rest })) ∨
    ∃ j d, rest[j]? = some d ∧
      getDiff sv { m with diffs := a1 :: rest }
        = resolveAt sv { m with diffs := a1 :: rest } (j + 1) ∧
      getDiff sv { m with diffs := a2 :: rest }
        = resolveAt sv { m with diffs := a2 :: rest } (j + 1) := by
  have hne1 : ({ m with diffs := a1 :: rest } : Matcher).diffs ≠ [] := List.cons_ne_nil _ _
  have hne2 : ({ m with diffs := a2 :: rest } : Matcher).diffs ≠ [] := List.cons_ne_nil _ _
  rcases resolves_or_neutral sv _ hne1 with ⟨t, ht⟩ | ⟨hno, h0⟩
  · right
    have ht2 := resolves_swap_head m a1 a2 rest hpos t ht
    have hpos1 := index_id_pos_of_resolves _ t ht
    have hidx : ({ m with diffs := a2 :: rest } : Matcher).index_id t
        = ({ m with diffs := a1 :: rest } : Matcher).index_id t := rfl
    obtain ⟨j, hj⟩ : ∃ j, ({ m with diffs := a1 :: rest } : Matcher).index_id t = j + 1 :=
      ⟨_, (Nat.sub_add_cancel hpos1).symm⟩
    have hlt := index_id_lt _ t hne1
    rw [hj] at hlt
    have hjlt : j < rest.length := by
      have : (a1 :: rest).length = rest.length + 1 := rfl
      have hlt' : j + 1 < (a1 :: rest).length := hlt
      omega
    refine ⟨j, rest[j], List.getElem?_eq_getElem hjlt, ?_, ?_⟩
    · rw [getDiff_of_resolves sv _ t ht, hj]
    · rw [getDiff_of_resolves sv _ t ht2, hidx, hj]
  · left
    refine ⟨h0, ?_⟩
    rcases resolves_or_neutral sv _ hne2 with ⟨t, ht⟩ | ⟨_, h0'⟩
    · exfalso
      have ht1 := resolves_swap_head m a2 a1 rest hpos.symm t ht
      rcases hno with h | h
      · rw [ht1.1] at h; cases h
      · have := h t ht1.2.1
        rw [ht1.2.2.1] at this; cases this
    · exact h0'

/-- C18: two histories that differ at most in the main-loudness, target-loudness and peak
values of their first snapshot (same position there, same snapshots after it) give, for every
query position, cursor hint and policy, the same gain and the same cursor hint after
`getDiff`, and the call is undefined for both or for neither; when the snapshots after the
first are well-formed and the definition index is valid, both calls return. -/
theorem getDiff_ignores_first_snapshot (sv : Int) (m : Matcher) (a1 a2 : LoudnessPos)
    (rest : List LoudnessPos) (hpos : a1.getPosition = a2.getPosition) :
    (getDiff sv { m with diffs := a1 :: rest }).map (fun r => (r.1, r.2.prev_id))
      = (getDiff sv { m with diffs := a2 :: rest }).map (fun r => (r.1, r.2.prev_id)) ∧
    ((∀ s ∈ rest, s.WellFormed) → toSizeT m.loudnessID < loudnessNUM →
      ∃ g j, getDiff sv { m with diffs := a1 :: rest }
          = some (g, { m with diffs := a1 :: rest, prev_id := j }) ∧
        getDiff sv { m with diffs := a2 :: rest }
          = some (g, { m with diffs := a2 :: rest, prev_id := j })) := by
  rcases getDiff_swap_head sv m a1 a2 rest hpos with ⟨h1, h2⟩ | ⟨j, d, hd, h1, h2⟩
  · refine ⟨by rw [h1, h2]; rfl, fun _ _ => ⟨0, m.prev_id, ?_, ?_⟩⟩
    · rw [h1]
    · rw [h2]
  · have e1 : resolveAt sv { m with diffs := a1 :: rest } (j + 1)
        = (d.getGain (toSizeT m.loudnessID) m.ceil (m.sideID == sv) m.target).map
            (fun gain => (juce.jlimit (-m.bound) m.bound gain,
              { m with diffs := a1 :: rest, prev_id := j + 1 })) := by
      have hd1 : ({ m with diffs := a1 :: rest } : Matcher).diffs[j + 1]? = some d := by
        show (a1 :: rest)[j + 1]? = some d
        simpa using hd
      unfold resolveAt
      rw [hd1]
      dsimp only
      cases d.getGain (toSizeT m.loudnessID) m.ceil (m.sideID == sv) m.target <;> rfl
    have e2 : resolveAt sv { m with diffs := a2 :: rest } (j + 1)
        = (d.getGain (toSizeT m.loudnessID) m.ceil (m.sideID == sv) m.target).map
            (fun gain => (juce.jlimit (-m.bound) m.bound gain,
              { m with diffs := a2 :: rest, prev_id := j + 1 })) := by
      have hd2 : ({ m with diffs := a2 :: rest } : Matcher).diffs[j + 1]? = some d := by
        show (a2 :: rest)[j + 1]? = some d
        simpa using hd
      unfold resolveAt
      rw [hd2]
      dsimp only
      cases d.getGain (toSizeT m.loudnessID) m.ceil (m.sideID == sv) m.target <;> rfl
    rw [h1, h2, e1, e2]
    refine ⟨?_, fun hwf hid => ?_⟩
    · cases d.getGain (toSizeT m.loudnessID) m.ceil (m.sideID == sv) m.target <;> rfl
    · have hdm : d ∈ rest := by
        obtain ⟨h, rfl⟩ := List.getElem?_eq_some.mp hd
        exact List.getElem_mem h
      have hg := d.getGain_isSome (toSizeT m.loudnessID) m.ceil (m.sideID == sv) m.target
        (by rw [(hwf d hdm).1]; exact hid) (by rw [(hwf d hdm).2]; exact hid)
      rw [hg]
      exact ⟨_, j + 1, rfl, rfl⟩

/-- C18, at the example history and the same history with the snapshot seeded by `reset` at
position 0 in place of its first snapshot: position 5, cursor hint 0. -/
theorem getDiff_ignores_first_snapshot_witness :
    (⟨[-15, -15, -15], [-14, -14, -14], 1, 0⟩ : LoudnessPos).getPosition
      = (⟨[0, 0, 0], [0, 0, 0], 0, 0⟩ : LoudnessPos).getPosition ∧
    (getDiff 1 (exampleMatcher 5 0 false 100)).map (fun r => (r.1, r.2.prev_id))
      = (getDiff 1 ⟨5, 0, [⟨[0, 0, 0], [0, 0, 0], 0, 0⟩, exampleSnapshot 10,
          ⟨[-8, -8, -8], [-14, -14, -14], 0, 20⟩], false, 0, 0, 100, 0⟩).map
          (fun r => (r.1, r.2.prev_id)) :=
  ⟨rfl, (getDiff_ignores_first_snapshot 1 (exampleMatcher 5 0 false 100)
    ⟨[-15, -15, -15], [-14, -14, -14], 1, 0⟩ ⟨[0, 0, 0], [0, 0, 0], 0, 0⟩
    [exampleSnapshot 10, ⟨[-8, -8, -8], [-14, -14, -14], 0, 20⟩] rfl).1⟩

end ZLLMatch
